import Mathlib

/-!
Verification development for the obsidian-github-issues-sync plugin.

The TypeScript sources are shallowly embedded here: strings are lists of
characters, async vault / network effects are made explicit (state passing
or outcome functions), and each regular expression of the source is
implemented as a deterministic character-level matcher that follows the
semantics of the original pattern on the inputs the theorems speak about.
-/

set_option maxRecDepth 8192

namespace GhSync

/-- Strings of the embedded program, modelled as lists of characters. -/
abbrev Str := List Char

/-! ## Basic string helpers shared by several components -/

/-- Substring test, modelling the JavaScript String.prototype.includes. -/
def substrOf (needle hay : Str) : Bool :=
  match hay with
  | [] => needle.isEmpty
  | _ :: t => needle.isPrefixOf hay || substrOf needle t

/-- A mismatch between a needle and an initial segment that is decided inside
the segment itself: when it holds, no extension of the segment can make the
needle a prefix. -/
def misAt : Str → Str → Bool
  | [], _ => false
  | _ :: _, [] => false
  | a :: n2, b :: s2 => (!(a == b)) || misAt n2 s2

/-- The needle mismatches, within the literal itself, at every suffix
position of the literal. -/
def noStarts (needle : Str) : Str → Bool
  | [] => true
  | c :: t => misAt needle (c :: t) && noStarts needle t

/-- The decimal digit character for a value below ten. -/
def digitChar : Nat → Char
  | 0 => '0'
  | 1 => '1'
  | 2 => '2'
  | 3 => '3'
  | 4 => '4'
  | 5 => '5'
  | 6 => '6'
  | 7 => '7'
  | 8 => '8'
  | _ => '9'

/-- Fuelled decimal printer (the fuel is always sufficient at the wrapper). -/
def natDigitsAux : Nat → Nat → Str
  | 0, _ => []
  | fuel + 1, n =>
    if n < 10 then [digitChar n]
    else natDigitsAux fuel (n / 10) ++ [digitChar (n % 10)]

/-- Decimal representation of a natural number, as the JavaScript string
interpolation of a number produces it. -/
def natDigits (n : Nat) : Str := natDigitsAux (n + 1) n

/-- Decimal parsing of a digit string, modelling parseInt(s, 10) on all-digit
input. -/
def parseDecimal (ds : Str) : Nat :=
  ds.foldl (fun a c => a * 10 + (c.toNat - 48)) 0

/-- Join a list of strings with a comma and a space, modelling
Array.prototype.join of the GraphQL error messages. -/
def joinComma : List Str → Str
  | [] => []
  | [x] => x
  | x :: rest => x ++ (", ".data) ++ joinComma rest

/-! ## GitHub GraphQL client (src/github/client.ts)

The network is modelled by a function from the attempt index to the outcome
observed on that attempt: either an HTTP response (status, parsed GraphQL
errors, payload) or a transport-level failure carrying a message (the message
of the thrown Error that requestUrl produced).  Sleeping is recorded in a
delay trace instead of actually waiting. -/

/-- Outcome of one attempt of the underlying requestUrl call. -/
inductive Outcome where
  | resp (status : Nat) (errors : List Str) (payload : Str)
  | net (msg : Str)
deriving DecidableEq

/-- Result of the whole call: the returned payload, or the message of the
error finally thrown. -/
inductive ReqResult where
  | ok (payload : Str)
  | error (msg : Str)
deriving DecidableEq

/-- Observable result of a run of graphqlRequest: how many attempts were
issued, which backoff delays (in milliseconds) were slept, and the final
result (payload or the message of the thrown error). -/
structure RunResult where
  attempts : Nat
  delays : List Nat
  result : ReqResult
deriving DecidableEq

/-- MAX_RETRIES of client.ts. -/
def MAX_RETRIES : Nat := 5

/-- INITIAL_DELAY_MS of client.ts. -/
def INITIAL_DELAY_MS : Nat := 1000

/-- RETRYABLE_STATUS_CODES.includes(status) of client.ts. -/
def retryableStatus (s : Nat) : Bool := [502, 503, 504, 429].contains s

/-- The transient-error classification of client.ts, which inspects the
message of the caught error for the listed substrings. -/
def isRetryableMsg (m : Str) : Bool :=
  substrOf (("status 502").data) m ||
  substrOf (("status 503").data) m ||
  substrOf (("status 504").data) m ||
  substrOf (("status 429").data) m ||
  substrOf (("timeout").data) m ||
  substrOf (("network").data) m

/-- The retry loop of graphqlRequest.  The fuel argument is the number of
loop iterations still allowed (MAX_RETRIES at the top level) and decreases by
one per iteration exactly as the for-loop counter increases, so the fuelled
recursion reproduces the loop.  The branch structure mirrors the source: a
200 response with a populated errors array and a non-retryable status both
throw inside the try block and are then classified by the catch block via
isRetryableMsg; a retryable status only records the error and continues. -/
def graphqlGo (o : Nat → Outcome) : Nat → Nat → Option Str → List Nat → RunResult
  | 0, attempt, lastError, delays =>
    ⟨attempt, delays, ReqResult.error (lastError.getD (("Request failed after retries").data))⟩
  | fuel + 1, attempt, _lastError, delays =>
    match o attempt with
    | Outcome.resp status errs payload =>
      if status = 200 then
        if errs.isEmpty then ⟨attempt + 1, delays, ReqResult.ok payload⟩
        else
          let m := (("GraphQL errors: ").data) ++ joinComma errs
          if isRetryableMsg m ∧ attempt < MAX_RETRIES - 1 then
            graphqlGo o fuel (attempt + 1) (some m) (delays ++ [INITIAL_DELAY_MS * 2 ^ attempt])
          else ⟨attempt + 1, delays, ReqResult.error m⟩
      else if retryableStatus status then
        let m := (("Request failed, status ").data) ++ natDigits status
        if attempt < MAX_RETRIES - 1 then
          graphqlGo o fuel (attempt + 1) (some m) (delays ++ [INITIAL_DELAY_MS * 2 ^ attempt])
        else ⟨attempt + 1, delays, ReqResult.error m⟩
      else
        let m := (("GraphQL request failed: ").data) ++ natDigits status
        if isRetryableMsg m ∧ attempt < MAX_RETRIES - 1 then
          graphqlGo o fuel (attempt + 1) (some m) (delays ++ [INITIAL_DELAY_MS * 2 ^ attempt])
        else ⟨attempt + 1, delays, ReqResult.error m⟩
    | Outcome.net m =>
      if isRetryableMsg m ∧ attempt < MAX_RETRIES - 1 then
        graphqlGo o fuel (attempt + 1) (some m) (delays ++ [INITIAL_DELAY_MS * 2 ^ attempt])
      else ⟨attempt + 1, delays, ReqResult.error m⟩

/-- graphqlRequest of client.ts over a given sequence of attempt outcomes. -/
def graphqlRequest (o : Nat → Outcome) : RunResult :=
  graphqlGo o MAX_RETRIES 0 none []

/-- The error message that attempt observing a given outcome derives, if the
outcome is a failure (none for a clean 200 response). -/
def observedError : Outcome → Option Str
  | Outcome.resp status errs _ =>
    if status = 200 then
      if errs.isEmpty then none
      else some ((("GraphQL errors: ").data) ++ joinComma errs)
    else if retryableStatus status then
      some ((("Request failed, status ").data) ++ natDigits status)
    else some ((("GraphQL request failed: ").data) ++ natDigits status)
  | Outcome.net m => some m

/-! ## Current-iteration selection (fetchProjectMetadata in client.ts)

Dates are modelled as integers (a day count); the source computes
end = start + duration days via Date.setDate, which adds exactly the duration
in days. -/

/-- Iteration of the project metadata (types.ts). -/
structure Iteration where
  id : Str
  title : Str
  startDate : Int
  duration : Int
deriving DecidableEq

/-- The filter predicate of the active-iterations computation:
start <= now <= start + duration. -/
def iterActive (now : Int) (it : Iteration) : Bool :=
  decide (it.startDate ≤ now) && decide (now ≤ it.startDate + it.duration)

/-- Models activeIterations.sort((a, b) => startOf b - startOf a)[0]: the
first element of the stable descending sort by start date, which is the
earliest listed iteration with the maximum start date. -/
def latestStart : List Iteration → Option Iteration
  | [] => none
  | x :: xs =>
    some (xs.foldl (fun best it => if best.startDate < it.startDate then it else best) x)

/-- The current-iteration selection of fetchProjectMetadata. -/
def currentIterationOf (now : Int) (iters : List Iteration) : Option Iteration :=
  latestStart (iters.filter (iterActive now))

/-! ## Identity codec (issue-files.ts, the url-only frontmatter version)

The three regular expressions of parseFrontmatter are implemented as
deterministic character-level matchers. -/

/-- Issue data from GitHub (types.ts).  The open/closed state is kept as the
raw string of the payload. -/
structure GitHubIssue where
  number : Nat
  title : Str
  body : Str
  repository : Str
  url : Str
  status : Str
  state : Str
  assignees : List Str
  labels : List Str
deriving DecidableEq

/-- The parse result of parseFrontmatter: url plus the repo and issue number
derived from it. -/
structure IssueFrontmatter where
  url : Str
  repo : Str
  issue_number : Nat
deriving DecidableEq

/-- Split a string on a separator character, modelling String.prototype.split
with a one-character separator. -/
def splitOnChar (sep : Char) : Str → List Str
  | [] => [[]]
  | c :: t =>
    if c = sep then [] :: splitOnChar sep t
    else
      match splitOnChar sep t with
      | h :: r => (c :: h) :: r
      | [] => [[c]]

/-- Split at the first occurrence of a separator string, returning the text
before it and the text after it; none when the separator does not occur. -/
def splitAtFirst (sep : Str) : Str → Option (Str × Str)
  | [] => if sep.isEmpty then some ([], []) else none
  | c :: t =>
    if sep.isPrefixOf (c :: t) then some ([], (c :: t).drop sep.length)
    else (splitAtFirst sep t).map (fun pr => (c :: pr.1, pr.2))

/-- The whitespace class of JavaScript regular expressions, restricted to its
ASCII members (the only ones the embedded strings use). -/
def jsWhitespace (c : Char) : Bool :=
  c = ' ' || c = '\t' || c = '\n' || c = '\r' || c = '\x0b' || c = '\x0c'

/-- The capture of the frontmatter block regex on a file content: the content
must begin with three dashes and a newline, and the lazy capture runs to the
first newline-dashes occurrence. -/
def frontmatterCapture (content : Str) : Option Str :=
  if (("---\n").data).isPrefixOf content then
    (splitAtFirst (("\n---").data) (content.drop 4)).map (fun pr => pr.1)
  else none

/-- Match one yaml line against the url-field regex of parseFrontmatter
(greedy whitespace, an optional opening quote, a greedy non-quote capture, an
optional closing quote, trailing whitespace). -/
def matchUrlLine (line : Str) : Option Str :=
  if (("url:").data).isPrefixOf line then
    let rest := (line.drop 4).dropWhile jsWhitespace
    let rest2 := match rest with
      | '"' :: r => r
      | r => r
    let cap := rest2.takeWhile (fun c => c ≠ '"')
    let rest3 := rest2.drop cap.length
    let rest4 := match rest3 with
      | '"' :: r => r
      | r => r
    if rest4.all jsWhitespace then some cap else none
  else none

/-- The first line whose url-field match succeeds (the source loop breaks on
the first matching line, even when its capture is empty). -/
def findFirstUrl : List Str → Option Str
  | [] => none
  | l :: rest =>
    match matchUrlLine l with
    | some u => some u
    | none => findFirstUrl rest

/-- Attempt the owner/repo/issues/number pattern at the current position: a
slash, a nonempty run without slashes, a slash, a nonempty run without
slashes, the literal issues segment, and a nonempty digit run. -/
def tryIssuesAt (s : Str) : Option (Str × Str × Str) :=
  match s with
  | '/' :: rest =>
    let g1 := rest.takeWhile (fun c => c ≠ '/')
    if g1.isEmpty then none
    else
      match rest.drop g1.length with
      | '/' :: rest2 =>
        let g2 := rest2.takeWhile (fun c => c ≠ '/')
        if g2.isEmpty then none
        else
          let r2 := rest2.drop g2.length
          if (("/issues/").data).isPrefixOf r2 then
            let ds := (r2.drop 8).takeWhile Char.isDigit
            if ds.isEmpty then none else some (g1, g2, ds)
          else none
      | _ => none
  | _ => none

/-- Leftmost match of the owner/repo/issues/number pattern in a url. -/
def matchIssuesPattern : Str → Option (Str × Str × Str)
  | [] => none
  | c :: t =>
    match tryIssuesAt (c :: t) with
    | some r => some r
    | none =>
      let _ := c
      matchIssuesPattern t

/-- parseFrontmatter of issue-files.ts: extract the frontmatter block, find
the url line, and derive repo and issue number from the url.  An empty url
capture is falsy in the source and yields null. -/
def parseFrontmatter (content : Str) : Option IssueFrontmatter :=
  match frontmatterCapture content with
  | none => none
  | some yaml =>
    match findFirstUrl (splitOnChar '\n' yaml) with
    | none => none
    | some url =>
      if url.isEmpty then none
      else
        match matchIssuesPattern url with
        | none => none
        | some (owner, repoName, ds) =>
          some ⟨url, owner ++ '/' :: repoName, parseDecimal ds⟩

/-- generateFrontmatter of issue-files.ts: a minimal header carrying only the
canonical url. -/
def generateFrontmatter (issue : GitHubIssue) : Str :=
  (("---\nurl: \"").data) ++ issue.url ++ (("\"\n---").data)

/-! ## Filename derivation (types.ts) and the push-time title (sync.ts) -/

/-- The invalid-filename character class of types.ts. -/
def invalidFilenameChar (c : Char) : Bool :=
  c = '<' || c = '>' || c = ':' || c = '"' || c = '/' || c = '\\' ||
  c = '|' || c = '?' || c = '*' || decide (c.toNat ≤ 31)

/-- Collapse every run of dashes to a single dash. -/
def collapseDashes : Str → Str
  | [] => []
  | [c] => [c]
  | c :: d :: t =>
    if c = '-' ∧ d = '-' then collapseDashes (d :: t)
    else c :: collapseDashes (d :: t)

/-- A character trimmed from the ends of a sanitized name: a dash or
whitespace. -/
def dashOrSpace (c : Char) : Bool := c = '-' || jsWhitespace c

/-- Remove the leading and trailing dash-or-whitespace runs. -/
def trimDashSpace (s : Str) : Str :=
  (((s.dropWhile dashOrSpace).reverse.dropWhile dashOrSpace).reverse)

/-- The case-insensitive Windows reserved-name test of types.ts. -/
def isWindowsReserved (s : Str) : Bool :=
  let u := s.map Char.toUpper
  u = (("CON").data) || u = (("PRN").data) || u = (("AUX").data) || u = (("NUL").data) ||
  (match u with
   | [c1, c2, c3, d] =>
     ([c1, c2, c3] = (("COM").data) || [c1, c2, c3] = (("LPT").data)) &&
     decide ('1' ≤ d) && decide (d ≤ '9')
   | _ => false)

/-- sanitizeFilename of types.ts. -/
def sanitizeFilename (name : Str) : Str :=
  let s1 := name.map (fun c => if invalidFilenameChar c then '-' else c)
  let s2 := collapseDashes s1
  let s3 := trimDashSpace s2
  let s4 := if isWindowsReserved s3 then s3 ++ ['_'] else s3
  let s5 := if s4.isEmpty then ("untitled").data else s4
  if 200 < s5.length then s5.take 200 else s5

/-- generateIssueFilename of types.ts: sanitized title plus the issue number
as a parenthesised suffix.  writeIssueFile stores the file at this name plus
a md extension, so this is also the basename of a freshly pulled file. -/
def generateIssueFilename (issue : GitHubIssue) : Str :=
  sanitizeFilename issue.title ++ ((" (").data) ++ natDigits issue.number ++ ((")").data)

/-- Strip a leading parenthesised number (and following whitespace) from a
basename, as the newTitle computation of pushCurrentIssue does. -/
def stripLeadingNumber (s : Str) : Str :=
  match s with
  | '(' :: rest =>
    let ds := rest.takeWhile Char.isDigit
    if ds.isEmpty then s
    else
      match rest.drop ds.length with
      | ')' :: r2 => r2.dropWhile jsWhitespace
      | _ => s
  | _ => s

/-- Trim whitespace from both ends, modelling String.prototype.trim. -/
def trimJS (s : Str) : Str :=
  (((s.dropWhile jsWhitespace).reverse.dropWhile jsWhitespace).reverse)

/-- The remote title pushCurrentIssue derives from the basename of the file
being pushed. -/
def pushTitleOf (basename : Str) : Str :=
  trimJS (stripLeadingNumber basename)

/-- Does the string begin with a parenthesised digit run (the shape the
stripping regex of pushCurrentIssue matches)? -/
def startsParenNumber (s : Str) : Bool :=
  match s with
  | '(' :: rest =>
    let ds := rest.takeWhile Char.isDigit
    !ds.isEmpty &&
    (match rest.drop ds.length with
     | ')' :: _ => true
     | _ => false)
  | _ => false

/-! ## Vault file operations (issue-files.ts): getIssueFiles and
archiveOldIssues

A folder is a list of files (name and content).  A rename into the archive
folder is recorded as a Boolean archived flag on each file; the content of a
file is never rewritten by these operations, which the result type makes
structural. -/

/-- A file of the vault folder, as the archival operations see it. -/
structure VFile where
  name : Str
  content : Str
deriving DecidableEq

/-- The extension of a file name as the host store reports it: the text after
the last dot, empty when there is no dot. -/
def extOf (name : Str) : Str :=
  let parts := splitOnChar '.' name
  if parts.length ≤ 1 then [] else parts.getLastD []

/-- getIssueFiles of issue-files.ts: the markdown files of the issues folder,
minus the index file, whose content carries a parseable frontmatter. -/
def getIssueFiles (folder : List VFile) (indexFileName : Str) : List VFile :=
  folder.filter (fun f =>
    extOf f.name = (("md").data) &&
    !(f.name = indexFileName ++ ((".md").data)) &&
    (parseFrontmatter f.content).isSome)

/-- Whether archiveOldIssues moves a given file into the archive folder: the
file passed the getIssueFiles filter and its issue number is not among the
currently synced numbers. -/
def archDecision (indexFileName : Str) (currentIssueNumbers : List Nat) (f : VFile) : Bool :=
  extOf f.name = (("md").data) &&
  !(f.name = indexFileName ++ ((".md").data)) &&
  (match parseFrontmatter f.content with
   | some fm => !(currentIssueNumbers.contains fm.issue_number)
   | none => false)

/-- archiveOldIssues of issue-files.ts: re-read and re-parse each file of
getIssueFiles and rename into the archive folder the ones whose issue number
is not currently synced.  The first component flags each file of the folder
with whether it was renamed into the archive folder; the second is the
returned archived count. -/
def archiveOldIssues (folder : List VFile) (indexFileName : Str)
    (currentIssueNumbers : List Nat) : List (VFile × Bool) × Nat :=
  let toArchive := (getIssueFiles folder indexFileName).filter (fun f =>
    match parseFrontmatter f.content with
    | some fm => !(currentIssueNumbers.contains fm.issue_number)
    | none => false)
  (folder.map (fun f => (f, toArchive.contains f)), toArchive.length)

/-! ## Index generation (generateIndexContent of issue-files.ts)

The JavaScript Map is modelled as an insertion-ordered association list:
setting an existing key updates it in place, setting a new key appends it.
The nondeterministic last-synced timestamp is passed in as a parameter. -/

/-- Status field option of the project (types.ts). -/
structure StatusOption where
  id : Str
  name : Str
  color : Option Str
deriving DecidableEq

/-- Association-list lookup, modelling Map.prototype.get. -/
def mapGet (m : List (Str × List GitHubIssue)) (k : Str) : Option (List GitHubIssue) :=
  (m.find? (fun p => p.1 = k)).map (fun p => p.2)

/-- Insertion-ordered update, modelling Map.prototype.set: an existing key
keeps its position, a new key is appended. -/
def mapSet (m : List (Str × List GitHubIssue)) (k : Str) (v : List GitHubIssue) :
    List (Str × List GitHubIssue) :=
  if m.any (fun p => p.1 = k) then
    m.map (fun p => if p.1 = k then (p.1, v) else p)
  else m ++ [(k, v)]

/-- The sentinel status group name. -/
def noStatus : Str := ("No Status").data

/-- Initialize the status groups: one empty group per declared option in
order, then the sentinel group. -/
def initStatusGroups (statusOptions : List StatusOption) : List (Str × List GitHubIssue) :=
  mapSet (statusOptions.foldl (fun m st => mapSet m st.name []) []) noStatus []

/-- Append each issue to the group of its status (a fresh group is created at
the end of the map for a status that has no group yet). -/
def groupIssues (m : List (Str × List GitHubIssue)) (issues : List GitHubIssue) :
    List (Str × List GitHubIssue) :=
  issues.foldl (fun m issue =>
    mapSet m issue.status ((mapGet m issue.status).getD [] ++ [issue])) m

/-- The link line emitted for one issue of a section. -/
def entryLine (issuesFolder : Str) (issue : GitHubIssue) : Str :=
  let filename := generateIssueFilename issue
  let linkPath := if issuesFolder.isEmpty then filename else issuesFolder ++ '/' :: filename
  (("- [[").data) ++ linkPath ++ '|' :: issue.title ++ (("]]").data)

/-- The per-status sections: empty groups are skipped; a nonempty group
yields a heading line, a blank line, one entry per issue, and a blank line. -/
def sectionLines (issuesFolder : Str) (m : List (Str × List GitHubIssue)) : List Str :=
  m.flatMap (fun p =>
    if p.2.isEmpty then []
    else ((("## ").data) ++ p.1) :: [] :: (p.2.map (entryLine issuesFolder) ++ [[]]))

/-- The header lines of the index file: title, optional current iteration
(the falsy test on the iteration title skips the line for a null and for an
empty title alike), and the last-synced line. -/
def indexHeaderLines (projectTitle : Str) (iterationTitle : Option Str)
    (syncTime : Str) : List Str :=
  ('#' :: ' ' :: projectTitle) ::
    (match iterationTitle with
     | some t => if t.isEmpty then [] else [(("**Current Iteration:** ").data) ++ t]
     | none => []) ++
    ([] : Str) ::
    ((("*Last synced: ").data) ++ syncTime ++ ['*']) ::
    ([] : Str) :: []

/-- The section emitted for one status over a given issue list: empty when no
issue carries the status, otherwise a heading, a blank line, one entry per
issue of the status, and a blank line. -/
def indexSectionFor (issuesFolder : Str) (issues : List GitHubIssue) (k : Str) : List Str :=
  if (issues.filter (fun i => i.status = k)).isEmpty then []
  else ((("## ").data) ++ k) :: ([] : Str) ::
    ((issues.filter (fun i => i.status = k)).map (entryLine issuesFolder) ++ [([] : Str)])

/-- The lines of generateIndexContent, before they are joined with newlines. -/
def generateIndexLines (issues : List GitHubIssue) (statusOptions : List StatusOption)
    (projectTitle : Str) (iterationTitle : Option Str) (issuesFolder : Str)
    (syncTime : Str) : List Str :=
  indexHeaderLines projectTitle iterationTitle syncTime ++
  sectionLines issuesFolder (groupIssues (initStatusGroups statusOptions) issues)

/-- Join lines with newlines, modelling Array.prototype.join. -/
def joinLines : List Str → Str
  | [] => []
  | [l] => l
  | l :: rest => l ++ '\n' :: joinLines rest

/-- generateIndexContent of issue-files.ts. -/
def generateIndexContent (issues : List GitHubIssue) (statusOptions : List StatusOption)
    (projectTitle : Str) (iterationTitle : Option Str) (issuesFolder : Str)
    (syncTime : Str) : Str :=
  joinLines (generateIndexLines issues statusOptions projectTitle iterationTitle
    issuesFolder syncTime)

/-! ## Image pipeline (images.ts)

The two image regexes and the restore regex are implemented as fuelled
character scanners; the fuel is the length of the scanned string, which is
always enough because every step consumes at least one character. -/

/-- One discovered image reference: the whole matched reference, its alt text
and its path (for a wikilink without alt text the source uses the path as the
alt). -/
structure ImgMatch where
  full : Str
  alt : Str
  path : Str
deriving DecidableEq

/-- Attempt the wikilink image pattern at the current position. -/
def tryWikiAt (s : Str) : Option (ImgMatch × Str) :=
  match s with
  | '!' :: '[' :: '[' :: r =>
    let g1 := r.takeWhile (fun c => c ≠ ']' ∧ c ≠ '|')
    if g1.isEmpty then none
    else
      match r.drop g1.length with
      | '|' :: r2 =>
        let g2 := r2.takeWhile (fun c => c ≠ ']')
        (match r2.drop g2.length with
         | ']' :: ']' :: rest =>
           some (⟨(("![[").data) ++ g1 ++ '|' :: g2 ++ (("]]").data),
                  (if g2.isEmpty then g1 else g2), g1⟩, rest)
         | _ => none)
      | ']' :: ']' :: rest =>
        some (⟨(("![[").data) ++ g1 ++ (("]]").data), g1, g1⟩, rest)
      | _ => none
  | _ => none

/-- Global scan for wikilink images (the scan resumes after each match, as
exec with the global flag does). -/
def findWikiGo : Nat → Str → List ImgMatch
  | _, [] => []
  | 0, _ :: _ => []
  | fuel + 1, c :: t =>
    match tryWikiAt (c :: t) with
    | some (m, rest) => m :: findWikiGo fuel rest
    | none => findWikiGo fuel t

/-- All wikilink image matches of a body. -/
def findWikiMatches (content : Str) : List ImgMatch := findWikiGo content.length content

/-- Is a target a local vault path rather than a remote or data url? -/
def isLocalPath (path : Str) : Bool :=
  !((("http://").data).isPrefixOf path) &&
  !((("https://").data).isPrefixOf path) &&
  !((("data:").data).isPrefixOf path)

/-- Attempt the standard markdown image pattern at the current position. -/
def tryMdAt (s : Str) : Option (ImgMatch × Str) :=
  match s with
  | '!' :: '[' :: r =>
    let g1 := r.takeWhile (fun c => c ≠ ']')
    (match r.drop g1.length with
     | ']' :: '(' :: r2 =>
       let g2 := r2.takeWhile (fun c => c ≠ ')')
       if g2.isEmpty then none
       else
         (match r2.drop g2.length with
          | ')' :: rest =>
            some (⟨(("![").data) ++ g1 ++ (("](").data) ++ g2 ++ [')'], g1, g2⟩, rest)
          | _ => none)
     | _ => none)
  | _ => none

/-- Global scan for markdown images whose target is a local path; a match
with a remote target is consumed but not collected, as in the source loop. -/
def findMdGo : Nat → Str → List ImgMatch
  | _, [] => []
  | 0, _ :: _ => []
  | fuel + 1, c :: t =>
    match tryMdAt (c :: t) with
    | some (m, rest) =>
      if isLocalPath m.path then m :: findMdGo fuel rest else findMdGo fuel rest
    | none => findMdGo fuel t

/-- All local markdown image matches of a body. -/
def findMdMatches (content : Str) : List ImgMatch := findMdGo content.length content

/-- Replace the first occurrence of a substring, modelling
String.prototype.replace with a string pattern (dollar substitution in the
replacement is not modelled; the theorems only use replacements without a
dollar sign). -/
def replaceFirstGo (needle repl : Str) : Str → Str
  | [] => []
  | c :: t =>
    if needle.isPrefixOf (c :: t) then repl ++ (c :: t).drop needle.length
    else c :: replaceFirstGo needle repl t

/-- String.prototype.replace with a string pattern. -/
def replaceFirst (hay needle repl : Str) : Str :=
  if needle.isEmpty then repl ++ hay else replaceFirstGo needle repl hay

/-- The rewritten reference that the push direction substitutes for a local
image reference: the hidden marker line followed by a markdown image on the
uploaded url. -/
def markerBlock (path alt url : Str) : Str :=
  (("<!-- obsidian-local: ").data) ++ path ++ ((" -->\n![").data) ++ alt ++
  (("](").data) ++ url ++ [')']

/-- The result triple of processImagesOnPush. -/
structure PushResult where
  content : Str
  uploadedCount : Nat
  skippedCount : Nat
deriving DecidableEq

/-- processImagesOnPush of images.ts.  The per-path behaviour of
processLocalImage over the configured vault, settings and token is abstracted
into the resolve parameter (some url when the image was found and its upload
or probe produced a url, none when it was skipped); matches are scanned on
the original content and replacements applied successively to the working
content, exactly as in the source. -/
def processImagesOnPush (imageHostingRepo : Str) (resolve : Str → Option Str)
    (content : Str) : PushResult :=
  if imageHostingRepo.isEmpty then ⟨content, 0, 0⟩
  else
    let step := fun (st : PushResult) (m : ImgMatch) =>
      match resolve m.path with
      | some url =>
        PushResult.mk (replaceFirst st.content m.full (markerBlock m.path m.alt url))
          (st.uploadedCount + 1) st.skippedCount
      | none => PushResult.mk st.content st.uploadedCount (st.skippedCount + 1)
    let st1 := (findWikiMatches content).foldl step ⟨content, 0, 0⟩
    (findMdMatches content).foldl step st1

/-- Attempt the marker-plus-image restore pattern at the current position.
The greedy non-gt capture followed by the literal arrow forces the capture to
be the run up to the first gt character minus a trailing space-dash-dash. -/
def tryMarkerAt (s : Str) : Option (Str × Str) :=
  if (("<!-- obsidian-local: ").data).isPrefixOf s then
    let r := s.drop 21
    let run := r.takeWhile (fun c => c ≠ '>')
    if run.length < 4 then none
    else if ¬(run.drop (run.length - 3) = ((" --").data)) then none
    else
      let cap := run.take (run.length - 3)
      match r.drop run.length with
      | '>' :: '\n' :: '!' :: '[' :: r2 =>
        let alt := r2.takeWhile (fun c => c ≠ ']')
        (match r2.drop alt.length with
         | ']' :: '(' :: r3 =>
           let u := r3.takeWhile (fun c => c ≠ ')')
           if u.isEmpty then none
           else
             (match r3.drop u.length with
              | ')' :: rest => some (cap, rest)
              | _ => none)
         | _ => none)
      | _ => none
  else none

/-- Global replace of the restore pattern: a matched marker-image pair is
rewritten to a wikilink on the trimmed captured path and the scan resumes
after the match; unmatched text is kept. -/
def restoreGo : Nat → Str → Str
  | _, [] => []
  | 0, s => s
  | fuel + 1, c :: t =>
    match tryMarkerAt (c :: t) with
    | some (cap, rest) =>
      (("![[").data) ++ trimJS cap ++ (("]]").data) ++ restoreGo fuel rest
    | none => c :: restoreGo fuel t

/-- restoreLocalImages of images.ts. -/
def restoreLocalImages (content : Str) : Str := restoreGo content.length content

/-! ## processLocalImage (images.ts) with its vault lookup and dedup probe

The vault is a list of image files, the content digest is an abstract hash
function on the raw bytes, and the asset repository is the set of filenames
already present under its images prefix.  The existence probe is membership
(a 200 response on GET) and a successful upload (PUT) inserts the filename;
the upload count of the returned triple records whether a PUT was issued. -/

/-- An image file of the vault as findImageFile sees it. -/
structure ImageFile where
  path : Str
  name : Str
  basename : Str
  bytes : List Nat
deriving DecidableEq

/-- getExtension of images.ts: lowercase the name, split on dots, take the
last segment, defaulting to png when it is falsy. -/
def getExtension (filename : Str) : Str :=
  let parts := splitOnChar '.' (filename.map Char.toLower)
  match parts.getLast? with
  | some l => if l.isEmpty then ("png").data else l
  | none => ("png").data

/-- findImageFile of images.ts: direct path, then the common extensions when
the path has no dot, then a vault-wide search by name or basename. -/
def findImageFile (vaultFiles : List ImageFile) (imagePath : Str) : Option ImageFile :=
  match vaultFiles.find? (fun f => f.path = imagePath) with
  | some f => some f
  | none =>
    let withExt :=
      if !(imagePath.contains '.') then
        ([("png").data, ("jpg").data, ("jpeg").data, ("gif").data,
          ("webp").data, ("svg").data].findSome? (fun ext =>
          vaultFiles.find? (fun f => f.path = imagePath ++ '.' :: ext)))
      else none
    match withExt with
    | some f => some f
    | none =>
      let filename :=
        match (splitOnChar '/' imagePath).getLastD [] with
        | [] => imagePath
        | l => l
      vaultFiles.find? (fun f => f.name = filename || f.basename = filename)

/-- The filenames already present under the images prefix of the asset
repository. -/
structure RepoState where
  files : List Str
deriving DecidableEq

/-- The settings fields the image pipeline reads. -/
structure ImgSettings where
  imageHostingRepo : Str
  imageHostingBranch : Str
  githubBaseUrl : Str
deriving DecidableEq

/-- The host part of the browsable blob url. -/
def hostOf (s : ImgSettings) : Str :=
  if s.githubBaseUrl.isEmpty then ("github.com").data else s.githubBaseUrl

/-- The branch, defaulting to main. -/
def branchOf (s : ImgSettings) : Str :=
  if s.imageHostingBranch.isEmpty then ("main").data else s.imageHostingBranch

/-- The owner part of the hosting repository setting. -/
def ownerOf (s : ImgSettings) : Str := (splitOnChar '/' s.imageHostingRepo).headD []

/-- The repository part of the hosting repository setting (the source
destructuring leaves it undefined when there is no slash). -/
def repoOf (s : ImgSettings) : Str :=
  ((splitOnChar '/' s.imageHostingRepo).drop 1).headD (("undefined").data)

/-- The browsable raw-view url both the probe branch and the upload branch
construct. -/
def blobUrl (s : ImgSettings) (filename : Str) : Str :=
  (("https://").data) ++ hostOf s ++ '/' :: ownerOf s ++ '/' :: repoOf s ++
  (("/blob/").data) ++ branchOf s ++ (("/images/").data) ++ filename ++
  (("?raw=true").data)

/-- imageExistsInRepo of images.ts: the existence probe. -/
def imageExistsInRepo (st : RepoState) (filename : Str) : Bool :=
  st.files.contains filename

/-- The content-derived filename: sixteen hex digits of the digest plus the
original extension. -/
def hashFilename (hash : List Nat → Str) (f : ImageFile) : Str :=
  (hash f.bytes).take 16 ++ '.' :: getExtension f.name

/-- processLocalImage of images.ts: resolve the path to a file, derive the
content-addressed filename, probe the asset repository, and upload only when
the probe misses.  Returns the url (none when the file was not found), the
new repository state, and the number of uploads issued. -/
def processLocalImage (vaultFiles : List ImageFile) (hash : List Nat → Str)
    (s : ImgSettings) (st : RepoState) (imagePath : Str) :
    Option Str × RepoState × Nat :=
  match findImageFile vaultFiles imagePath with
  | none => (none, st, 0)
  | some f =>
    let filename := hashFilename hash f
    if imageExistsInRepo st filename then (some (blobUrl s filename), st, 0)
    else (some (blobUrl s filename), ⟨filename :: st.files⟩, 1)




/-! # Theorems

First a few generic list lemmas shared by the claim proofs. -/

theorem takeWhile_middle {p : Char → Bool} {a b : Str} {c : Char}
    (ha : ∀ x ∈ a, p x = true) (hc : p c = false) :
    (a ++ c :: b).takeWhile p = a := by
  rw [List.takeWhile_append_of_pos ha]
  simp [List.takeWhile_cons, hc]

theorem isPrefixOf_append_self (a b : Str) : a.isPrefixOf (a ++ b) = true := by
  simp [List.isPrefixOf_iff_prefix]

theorem isPrefixOf_cons_of_ne {n : Char} {ns : Str} {c : Char} {t : Str}
    (h : c ≠ n) : (n :: ns).isPrefixOf (c :: t) = false := by
  simp [List.isPrefixOf, Ne.symm h]

theorem drop_append_self (a b : Str) : (a ++ b).drop a.length = b :=
  List.drop_left a b

/-! Decimal printing and parsing. -/

theorem digitChar_toNat {d : Nat} (h : d < 10) : (digitChar d).toNat = 48 + d := by
  interval_cases d <;> decide

theorem digitChar_isDigit {d : Nat} (h : d < 10) : (digitChar d).isDigit = true := by
  interval_cases d <;> decide

theorem natDigitsAux_spec : ∀ fuel n, n < fuel →
    natDigitsAux fuel n ≠ [] ∧ (∀ c ∈ natDigitsAux fuel n, c.isDigit = true) ∧
    parseDecimal (natDigitsAux fuel n) = n := by
  intro fuel
  induction fuel with
  | zero => intro n h; omega
  | succ fuel ih =>
    intro n h
    by_cases h10 : n < 10
    · refine ⟨by simp [natDigitsAux, h10], ?_, ?_⟩
      · intro c hc
        simp [natDigitsAux, h10] at hc
        subst hc
        exact digitChar_isDigit h10
      · simp [natDigitsAux, h10, parseDecimal, digitChar_toNat h10]
    · have hdiv : n / 10 < fuel := by omega
      obtain ⟨ihne, ihdig, ihval⟩ := ih (n / 10) hdiv
      refine ⟨by simp [natDigitsAux, h10], ?_, ?_⟩
      · intro c hc
        simp only [natDigitsAux, if_neg h10, List.mem_append, List.mem_singleton] at hc
        rcases hc with hc | hc
        · exact ihdig c hc
        · subst hc
          exact digitChar_isDigit (by omega)
      · have hmod : n % 10 < 10 := by omega
        simp only [natDigitsAux, if_neg h10, parseDecimal, List.foldl_append,
          List.foldl_cons, List.foldl_nil]
        have : (List.foldl (fun a c => a * 10 + (c.toNat - 48)) 0 (natDigitsAux fuel (n / 10)))
            = n / 10 := ihval
        rw [this, digitChar_toNat hmod]
        omega

theorem natDigits_ne_nil (n : Nat) : natDigits n ≠ [] :=
  (natDigitsAux_spec (n + 1) n (by omega)).1

theorem natDigits_digits (n : Nat) : ∀ c ∈ natDigits n, c.isDigit = true :=
  (natDigitsAux_spec (n + 1) n (by omega)).2.1

theorem parseDecimal_natDigits (n : Nat) : parseDecimal (natDigits n) = n :=
  (natDigitsAux_spec (n + 1) n (by omega)).2.2

/-! Lemmas about the latest-start selection of the current iteration. -/

theorem foldl_latest_mem (xs : List Iteration) (x : Iteration) :
    xs.foldl (fun best it => if best.startDate < it.startDate then it else best) x ∈ x :: xs := by
  induction xs generalizing x with
  | nil => simp
  | cons y ys ih =>
    simp only [List.foldl_cons]
    by_cases h : x.startDate < y.startDate
    · simp only [if_pos h]
      have := ih y
      simp only [List.mem_cons] at this ⊢
      tauto
    · simp only [if_neg h]
      have := ih x
      simp only [List.mem_cons] at this ⊢
      tauto

theorem foldl_latest_ge (xs : List Iteration) (x : Iteration) :
    ∀ j ∈ x :: xs, j.startDate ≤
      (xs.foldl (fun best it => if best.startDate < it.startDate then it else best) x).startDate := by
  induction xs generalizing x with
  | nil => simp
  | cons y ys ih =>
    intro j hj
    simp only [List.mem_cons] at hj
    simp only [List.foldl_cons]
    by_cases h : x.startDate < y.startDate
    · simp only [if_pos h]
      rcases hj with h1 | h1 | h1
      · rw [h1]; exact le_trans (le_of_lt h) (ih y y (by simp))
      · rw [h1]; exact ih y y (by simp)
      · exact ih y j (by simp [h1])
    · simp only [if_neg h]
      rcases hj with h1 | h1 | h1
      · rw [h1]; exact ih x x (by simp)
      · rw [h1]; exact le_trans (le_of_not_lt h) (ih x x (by simp))
      · exact ih x j (by simp [h1])

theorem latestStart_spec {l : List Iteration} {it : Iteration}
    (h : latestStart l = some it) :
    it ∈ l ∧ ∀ j ∈ l, j.startDate ≤ it.startDate := by
  cases l with
  | nil => simp [latestStart] at h
  | cons x xs =>
    simp only [latestStart, Option.some.injEq] at h
    subst h
    exact ⟨foldl_latest_mem xs x, foldl_latest_ge xs x⟩

theorem latestStart_eq_none_iff {l : List Iteration} :
    latestStart l = none ↔ l = [] := by
  cases l <;> simp [latestStart]


/-- C5: the current-iteration resolver selects an iteration if and only if
some iteration satisfies start <= now <= start + duration; a selected
iteration qualifies and has the maximum start date among all qualifying
iterations; and on iterations starting ten and three days before now with
durations of fourteen and seven days, the one starting three days before now
is selected. -/
theorem C5_current_iteration_selection :
    (∀ now iters it, currentIterationOf now iters = some it →
      it ∈ iters ∧ iterActive now it = true ∧
      ∀ j ∈ iters, iterActive now j = true → j.startDate ≤ it.startDate) ∧
    (∀ now iters, currentIterationOf now iters = none ↔
      ∀ j ∈ iters, iterActive now j = false) ∧
    currentIterationOf 0 [⟨("a").data, [], -10, 14⟩, ⟨("b").data, [], -3, 7⟩] =
      some ⟨("b").data, [], -3, 7⟩ := by
  refine ⟨?_, ?_, by decide⟩
  · intro now iters it h
    obtain ⟨hmem, hmax⟩ := latestStart_spec h
    have hmem2 := List.mem_filter.mp hmem
    exact ⟨hmem2.1, hmem2.2, fun j hj hja => hmax j (List.mem_filter.mpr ⟨hj, hja⟩)⟩
  · intro now iters
    simp [currentIterationOf, latestStart_eq_none_iff, List.filter_eq_nil_iff]

/-- Witness for C5 at a concrete input: the selection on the two-iteration
example qualifies and has the maximal start among qualifiers. -/
theorem C5_current_iteration_selection_witness :
    (⟨("b").data, [], -3, 7⟩ : Iteration) ∈
        ([⟨("a").data, [], -10, 14⟩, ⟨("b").data, [], -3, 7⟩] : List Iteration) ∧
      iterActive 0 ⟨("b").data, [], -3, 7⟩ = true ∧
      ∀ j ∈ ([⟨("a").data, [], -10, 14⟩, ⟨("b").data, [], -3, 7⟩] : List Iteration),
        iterActive 0 j = true → j.startDate ≤ (-3 : Int) :=
  C5_current_iteration_selection.1 0
    [⟨("a").data, [], -10, 14⟩, ⟨("b").data, [], -3, 7⟩]
    ⟨("b").data, [], -3, 7⟩ (by decide)

/-! Lemmas about the retry loop. -/

theorem graphqlGo_attempts_le (o : Nat → Outcome) :
    ∀ fuel attempt le d, (graphqlGo o fuel attempt le d).attempts ≤ attempt + fuel := by
  intro fuel
  induction fuel with
  | zero => intro a le d; simp [graphqlGo]
  | succ fuel ih =>
    intro a le d
    unfold graphqlGo
    cases o a with
    | resp status errs payload =>
      dsimp only
      split_ifs <;>
        first
          | (exact le_trans (ih _ _ _) (by omega))
          | (simp only []; omega)
    | net m =>
      dsimp only
      split_ifs <;>
        first
          | (exact le_trans (ih _ _ _) (by omega))
          | (simp only []; omega)

theorem graphqlGo_lastError (o : Nat → Outcome) :
    ∀ fuel attempt le d,
      (le = none → 1 ≤ fuel) →
      (∀ m0, le = some m0 → observedError (o (attempt - 1)) = some m0) →
      ∀ m, (graphqlGo o fuel attempt le d).result = ReqResult.error m →
        observedError (o ((graphqlGo o fuel attempt le d).attempts - 1)) = some m := by
  intro fuel
  induction fuel with
  | zero =>
    intro a le d hne hinv m hres
    cases le with
    | none => exact absurd (hne rfl) (by omega)
    | some m0 =>
      simp only [graphqlGo, Option.getD_some] at hres ⊢
      injection hres with hm
      exact hm ▸ hinv m0 rfl
  | succ fuel ih =>
    intro a le d hne hinv m hres
    cases ho : o a with
    | resp status errs payload =>
      by_cases h1 : status = 200
      · by_cases h2 : errs.isEmpty = true
        · have hstep : graphqlGo o (fuel + 1) a le d = ⟨a + 1, d, ReqResult.ok payload⟩ := by
            simp [graphqlGo, ho, h1, h2]
          rw [hstep] at hres
          simp at hres
        · have obs : observedError (o a) =
              some ((("GraphQL errors: ").data) ++ joinComma errs) := by
            simp [observedError, ho, h1, h2]
          by_cases h3 : isRetryableMsg ((("GraphQL errors: ").data) ++ joinComma errs) ∧
              a < MAX_RETRIES - 1
          · simp only [List.cons_append, List.nil_append] at h3
            have hstep : graphqlGo o (fuel + 1) a le d =
                graphqlGo o fuel (a + 1)
                  (some ((("GraphQL errors: ").data) ++ joinComma errs))
                  (d ++ [INITIAL_DELAY_MS * 2 ^ a]) := by
              simp [graphqlGo, ho, h1, h2, h3]
            rw [hstep] at hres ⊢
            exact ih (a + 1) _ _ (fun h => absurd h (by simp))
              (fun m0 hm0 => by
                injection hm0 with hm0
                simpa [Nat.add_sub_cancel, hm0.symm] using obs) m hres
          · simp only [List.cons_append, List.nil_append] at h3
            have hstep : graphqlGo o (fuel + 1) a le d =
                ⟨a + 1, d, ReqResult.error ((("GraphQL errors: ").data) ++ joinComma errs)⟩ := by
              simp [graphqlGo, ho, h1, h2, h3]
            rw [hstep] at hres ⊢
            injection hres with hm
            simpa [Nat.add_sub_cancel, hm.symm] using obs
      · by_cases h2 : retryableStatus status = true
        · have obs : observedError (o a) =
              some ((("Request failed, status ").data) ++ natDigits status) := by
            simp [observedError, ho, h1, h2]
          by_cases h3 : a < MAX_RETRIES - 1
          · have hstep : graphqlGo o (fuel + 1) a le d =
                graphqlGo o fuel (a + 1)
                  (some ((("Request failed, status ").data) ++ natDigits status))
                  (d ++ [INITIAL_DELAY_MS * 2 ^ a]) := by
              simp [graphqlGo, ho, h1, h2, h3]
            rw [hstep] at hres ⊢
            exact ih (a + 1) _ _ (fun h => absurd h (by simp))
              (fun m0 hm0 => by
                injection hm0 with hm0
                simpa [Nat.add_sub_cancel, hm0.symm] using obs) m hres
          · have hstep : graphqlGo o (fuel + 1) a le d =
                ⟨a + 1, d,
                  ReqResult.error ((("Request failed, status ").data) ++ natDigits status)⟩ := by
              simp [graphqlGo, ho, h1, h2, h3]
            rw [hstep] at hres ⊢
            injection hres with hm
            simpa [Nat.add_sub_cancel, hm.symm] using obs
        · have obs : observedError (o a) =
              some ((("GraphQL request failed: ").data) ++ natDigits status) := by
            simp [observedError, ho, h1, h2]
          by_cases h3 : isRetryableMsg ((("GraphQL request failed: ").data) ++ natDigits status) ∧
              a < MAX_RETRIES - 1
          · simp only [List.cons_append, List.nil_append] at h3
            have hstep : graphqlGo o (fuel + 1) a le d =
                graphqlGo o fuel (a + 1)
                  (some ((("GraphQL request failed: ").data) ++ natDigits status))
                  (d ++ [INITIAL_DELAY_MS * 2 ^ a]) := by
              simp [graphqlGo, ho, h1, h2, h3]
            rw [hstep] at hres ⊢
            exact ih (a + 1) _ _ (fun h => absurd h (by simp))
              (fun m0 hm0 => by
                injection hm0 with hm0
                simpa [Nat.add_sub_cancel, hm0.symm] using obs) m hres
          · simp only [List.cons_append, List.nil_append] at h3
            have hstep : graphqlGo o (fuel + 1) a le d =
                ⟨a + 1, d,
                  ReqResult.error ((("GraphQL request failed: ").data) ++ natDigits status)⟩ := by
              simp [graphqlGo, ho, h1, h2, h3]
            rw [hstep] at hres ⊢
            injection hres with hm
            simpa [Nat.add_sub_cancel, hm.symm] using obs
    | net mm =>
      have obs : observedError (o a) = some mm := by simp [observedError, ho]
      by_cases h3 : isRetryableMsg mm ∧ a < MAX_RETRIES - 1
      · have hstep : graphqlGo o (fuel + 1) a le d =
            graphqlGo o fuel (a + 1) (some mm) (d ++ [INITIAL_DELAY_MS * 2 ^ a]) := by
          simp [graphqlGo, ho, h3]
        rw [hstep] at hres ⊢
        exact ih (a + 1) _ _ (fun h => absurd h (by simp))
          (fun m0 hm0 => by
            injection hm0 with hm0
            simpa [Nat.add_sub_cancel, hm0.symm] using obs) m hres
      · have hstep : graphqlGo o (fuel + 1) a le d = ⟨a + 1, d, ReqResult.error mm⟩ := by
          simp [graphqlGo, ho, h3]
        rw [hstep] at hres ⊢
        injection hres with hm
        simpa [Nat.add_sub_cancel, hm.symm] using obs

/-- C2: the query client makes at most five attempts; four 503 responses
followed by a 200 yield the payload after exactly five attempts with backoff
delays of one, two, four and eight seconds; a non-retryable 404 fails after
exactly one attempt; and whenever the call fails, the surfaced error message
is the one derived from the outcome observed on the final attempt, not a
generic message. -/
theorem C2_retry_behaviour :
    (∀ o, (graphqlRequest o).attempts ≤ 5) ∧
    (∀ payload, graphqlRequest
        (fun n => if n < 4 then Outcome.resp 503 [] [] else Outcome.resp 200 [] payload) =
      ⟨5, [1000, 2000, 4000, 8000], ReqResult.ok payload⟩) ∧
    (∀ payload, graphqlRequest (fun _ => Outcome.resp 404 [] payload) =
      ⟨1, [], ReqResult.error (("GraphQL request failed: 404").data)⟩) ∧
    (∀ o m, (graphqlRequest o).result = ReqResult.error m →
      observedError (o ((graphqlRequest o).attempts - 1)) = some m) := by
  refine ⟨?_, ?_, ?_, ?_⟩
  · intro o
    simpa [graphqlRequest, MAX_RETRIES] using graphqlGo_attempts_le o MAX_RETRIES 0 none []
  · intro payload
    rfl
  · intro payload
    rfl
  · intro o m h
    exact graphqlGo_lastError o MAX_RETRIES 0 none []
      (fun _ => by simp [MAX_RETRIES]) (fun m0 h0 => by simp at h0) m h

/-- Witness for C2 at concrete inputs: the five-attempt 503 scenario with a
concrete payload, and the last-observed-error property on a concrete
transport failure. -/
theorem C2_retry_behaviour_witness :
    graphqlRequest
        (fun n => if n < 4 then Outcome.resp 503 [] [] else Outcome.resp 200 [] (("p").data)) =
      ⟨5, [1000, 2000, 4000, 8000], ReqResult.ok (("p").data)⟩ ∧
    observedError ((fun _ => Outcome.net (("boom").data))
        ((graphqlRequest (fun _ => Outcome.net (("boom").data))).attempts - 1)) =
      some (("boom").data) :=
  ⟨C2_retry_behaviour.2.1 (("p").data),
   C2_retry_behaviour.2.2.2 (fun _ => Outcome.net (("boom").data)) (("boom").data) (by decide)⟩

theorem misAt_isPrefixOf : ∀ (needle seg : Str), misAt needle seg = true →
    ∀ ext, needle.isPrefixOf (seg ++ ext) = false := by
  intro needle
  induction needle with
  | nil =>
    intro seg h ext
    exact absurd h (by simp [misAt])
  | cons a n2 ih =>
    intro seg h ext
    cases seg with
    | nil => exact absurd h (by simp [misAt])
    | cons b s2 =>
      rw [misAt] at h
      rw [List.cons_append, List.isPrefixOf]
      cases hab : a == b with
      | false => simp [hab]
      | true =>
        have h2 : misAt n2 s2 = true := by simpa [hab] using h
        simp [hab, ih s2 h2 ext]

theorem substrOf_digits {needle : Str} {c0 : Char} {r : Str}
    (hn : needle = c0 :: r) (hc0 : c0.isDigit = false) :
    ∀ ds, (∀ c ∈ ds, c.isDigit = true) → substrOf needle ds = false := by
  intro ds
  induction ds with
  | nil =>
    intro _
    subst hn
    rfl
  | cons x t ih =>
    intro h
    have hx : x ≠ c0 := by
      intro he
      exact absurd (he ▸ h x (by simp)) (by simp [hc0])
    have hpref : needle.isPrefixOf (x :: t) = false := by
      rw [hn]
      exact isPrefixOf_cons_of_ne hx
    rw [substrOf, hpref, ih (fun c hc => h c (by simp [hc]))]
    rfl

theorem substrOf_append_false {needle : Str} {c0 : Char} {r : Str}
    (hn : needle = c0 :: r) (hc0 : c0.isDigit = false) :
    ∀ (L ds : Str), noStarts needle L = true → (∀ c ∈ ds, c.isDigit = true) →
      substrOf needle (L ++ ds) = false := by
  intro L
  induction L with
  | nil =>
    intro ds _ hds
    simpa using substrOf_digits hn hc0 ds hds
  | cons x t ih =>
    intro ds hns hds
    simp only [noStarts, Bool.and_eq_true] at hns
    have h1 : misAt needle (x :: t) = true := hns.1
    have h2 : noStarts needle t = true := hns.2
    have hp := misAt_isPrefixOf needle (x :: t) h1 ds
    rw [List.cons_append] at hp
    rw [List.cons_append, substrOf, hp, ih ds h2 hds]
    rfl

/-- No status below six hundred derives a request-failed message that the
substring classifier considers transient. -/
theorem notRetryable_requestFailed :
    ∀ n, n < 600 →
      isRetryableMsg ((("GraphQL request failed: ").data) ++ natDigits n) = false := by
  intro n _
  have hds := natDigits_digits n
  have h1 : substrOf ((("status 502").data))
      ((("GraphQL request failed: ").data) ++ natDigits n) = false :=
    substrOf_append_false (show ((("status 502").data) : Str) = 's' :: (("tatus 502").data)
      from rfl) (by decide) _ _ (by decide) hds
  have h2 : substrOf ((("status 503").data))
      ((("GraphQL request failed: ").data) ++ natDigits n) = false :=
    substrOf_append_false (show ((("status 503").data) : Str) = 's' :: (("tatus 503").data)
      from rfl) (by decide) _ _ (by decide) hds
  have h3 : substrOf ((("status 504").data))
      ((("GraphQL request failed: ").data) ++ natDigits n) = false :=
    substrOf_append_false (show ((("status 504").data) : Str) = 's' :: (("tatus 504").data)
      from rfl) (by decide) _ _ (by decide) hds
  have h4 : substrOf ((("status 429").data))
      ((("GraphQL request failed: ").data) ++ natDigits n) = false :=
    substrOf_append_false (show ((("status 429").data) : Str) = 's' :: (("tatus 429").data)
      from rfl) (by decide) _ _ (by decide) hds
  have h5 : substrOf ((("timeout").data))
      ((("GraphQL request failed: ").data) ++ natDigits n) = false :=
    substrOf_append_false (show ((("timeout").data) : Str) = 't' :: (("imeout").data)
      from rfl) (by decide) _ _ (by decide) hds
  have h6 : substrOf ((("network").data))
      ((("GraphQL request failed: ").data) ++ natDigits n) = false :=
    substrOf_append_false (show ((("network").data) : Str) = 'n' :: (("etwork").data)
      from rfl) (by decide) _ _ (by decide) hds
  rw [isRetryableMsg, h1, h2, h3, h4, h5, h6]
  rfl

/-- C7 (as amended): a response with a non-retryable status (any status below
six hundred other than 200, 429, 502, 503, 504) fails after exactly one
attempt with no backoff delay; a 200 response with a populated errors array
whose joined message the substring classifier does not consider transient
fails after exactly one attempt with no delay; and a transport failure whose
message is not transient-looking fails after exactly one attempt with no
delay.  (The unconditional form of the errors-array case is false, see the
counterexample.) -/
theorem C7_nonretryable_propagation :
    (∀ n errs payload, n < 600 → ¬ n = 200 → retryableStatus n = false →
      graphqlRequest (fun _ => Outcome.resp n errs payload) =
        ⟨1, [], ReqResult.error ((("GraphQL request failed: ").data) ++ natDigits n)⟩) ∧
    (∀ errs payload, ¬ errs.isEmpty = true →
      isRetryableMsg ((("GraphQL errors: ").data) ++ joinComma errs) = false →
      graphqlRequest (fun _ => Outcome.resp 200 errs payload) =
        ⟨1, [], ReqResult.error ((("GraphQL errors: ").data) ++ joinComma errs)⟩) ∧
    (∀ m, isRetryableMsg m = false →
      graphqlRequest (fun _ => Outcome.net m) = ⟨1, [], ReqResult.error m⟩) := by
  refine ⟨?_, ?_, ?_⟩
  · intro n errs payload hlt h200 hretry
    have key := notRetryable_requestFailed n hlt
    simp only [List.cons_append, List.nil_append] at key
    simp [graphqlRequest, graphqlGo, h200, hretry, key]
  · intro errs payload hne hmsg
    simp only [List.cons_append, List.nil_append] at hmsg
    simp [graphqlRequest, graphqlGo, hne, hmsg]
  · intro m hm
    simp [graphqlRequest, graphqlGo, hm]

/-- C7 counterexample at a concrete input: a 200 response carrying the single
GraphQL error message timeout is retried with the full backoff schedule (five
attempts, four delays) instead of failing immediately on the first attempt,
because the thrown message contains the substring the transient classifier
looks for. -/
theorem C7_nonretryable_propagation_counterexample :
    (graphqlRequest (fun _ => Outcome.resp 200 [("timeout").data] [])).attempts = 5 ∧
    (graphqlRequest (fun _ => Outcome.resp 200 [("timeout").data] [])).delays =
      [1000, 2000, 4000, 8000] := by
  decide

/-- Witness for C7 at concrete inputs: a 404 response and a non-transient
transport failure both fail after one attempt with no delay. -/
theorem C7_nonretryable_propagation_witness :
    graphqlRequest (fun _ => Outcome.resp 404 [] []) =
      ⟨1, [], ReqResult.error ((("GraphQL request failed: ").data) ++ natDigits 404)⟩ ∧
    graphqlRequest (fun _ => Outcome.net (("boom").data)) =
      ⟨1, [], ReqResult.error (("boom").data)⟩ :=
  ⟨C7_nonretryable_propagation.1 404 [] [] (by decide) (by decide) (by decide),
   C7_nonretryable_propagation.2.2 (("boom").data) (by decide)⟩

/-! Lemmas about the frontmatter codec. -/

theorem splitAtFirst_append {sep : Str} {c0 : Char} {sep2 : Str} (hsep : sep = c0 :: sep2)
    {a b : Str} (ha : ∀ x ∈ a, x ≠ c0) :
    splitAtFirst sep (a ++ sep ++ b) = some (a, b) := by
  induction a with
  | nil =>
    subst hsep
    simp only [List.nil_append, List.cons_append]
    rw [splitAtFirst]
    rw [if_pos]
    · simp only [Option.some.injEq, Prod.mk.injEq, true_and]
      have := drop_append_self (c0 :: sep2) b
      simpa using this
    · have := isPrefixOf_append_self (c0 :: sep2) b
      simpa using this
  | cons x a ih =>
    subst hsep
    simp only [List.cons_append]
    rw [splitAtFirst]
    rw [if_neg]
    · rw [ih (fun c hc => ha c (by simp [hc]))]
      rfl
    · rw [isPrefixOf_cons_of_ne (ha x (by simp))]
      simp

theorem splitOnChar_of_not_mem {sep : Char} {s : Str} (h : ∀ c ∈ s, c ≠ sep) :
    splitOnChar sep s = [s] := by
  induction s with
  | nil => rfl
  | cons x t ih =>
    rw [splitOnChar, if_neg (h x (by simp)), ih (fun c hc => h c (by simp [hc]))]

theorem takeWhile_of_all {p : Char → Bool} {a : Str} (ha : ∀ x ∈ a, p x = true) :
    a.takeWhile p = a := by
  induction a with
  | nil => rfl
  | cons x t ih =>
    rw [List.takeWhile_cons_of_pos (ha x (by simp)), ih (fun c hc => ha c (by simp [hc]))]

theorem frontmatterCapture_gen (url : Str) (h : ∀ c ∈ url, c ≠ '\n') :
    frontmatterCapture ((("---\nurl: \"").data) ++ url ++ (("\"\n---").data)) =
      some ((("url: \"").data) ++ url ++ ['"']) := by
  have hshape : (("---\nurl: \"").data) ++ url ++ (("\"\n---").data) =
      (("---\n").data) ++ (((("url: \"").data) ++ url ++ ['"']) ++ (("\n---").data) ++ []) := by
    simp
  rw [hshape]
  unfold frontmatterCapture
  have hpre : (("---\n").data).isPrefixOf ((("---\n").data) ++
      (((("url: \"").data) ++ url ++ ['"']) ++ (("\n---").data) ++ [])) = true :=
    isPrefixOf_append_self _ _
  rw [if_pos hpre]
  have hdrop : (((("---\n").data) ++ (((("url: \"").data) ++ url ++ ['"']) ++
      (("\n---").data) ++ [])).drop 4) =
      ((("url: \"").data) ++ url ++ ['"']) ++ (("\n---").data) ++ [] := by
    have := drop_append_self (("---\n").data)
      (((("url: \"").data) ++ url ++ ['"']) ++ (("\n---").data) ++ [])
    simpa using this
  rw [hdrop]
  rw [splitAtFirst_append rfl]
  · rfl
  · intro x hx
    simp only [List.mem_append, List.mem_singleton] at hx
    rcases hx with (hx | hx) | hx
    · fin_cases hx <;> decide
    · exact h x hx
    · subst hx
      decide

theorem matchUrlLine_gen (url : Str) (hq : ∀ c ∈ url, c ≠ '"') :
    matchUrlLine ((("url: \"").data) ++ url ++ ['"']) = some url := by
  unfold matchUrlLine
  rw [if_pos (by rfl)]
  have hdrop : (((("url: \"").data) ++ url ++ ['"']).drop 4) = ' ' :: '"' :: (url ++ ['"']) := by
    simp
  rw [hdrop]
  have hws : (' ' :: '"' :: (url ++ ['"'])).dropWhile jsWhitespace = '"' :: (url ++ ['"']) := by
    rw [List.dropWhile_cons_of_pos (by decide), List.dropWhile_cons_of_neg (by decide)]
  rw [hws]
  simp only
  have hcap : (url ++ ['"']).takeWhile (fun c => decide (c ≠ '"')) = url :=
    takeWhile_middle (fun x hx => by simp [hq x hx]) (by decide)
  rw [hcap]
  rw [drop_append_self url ['"']]
  simp

theorem tryIssuesAt_not_slash {c : Char} {t : Str} (h : c ≠ '/') :
    tryIssuesAt (c :: t) = none := by
  unfold tryIssuesAt
  split
  · rename_i rest heq
    obtain ⟨h1, -⟩ := List.cons.inj heq
    exact absurd h1 h
  · rfl

theorem matchIssuesPattern_cons_of_none {c : Char} {t : Str}
    (h : tryIssuesAt (c :: t) = none) :
    matchIssuesPattern (c :: t) = matchIssuesPattern t := by
  rw [matchIssuesPattern, h]

theorem matchIssuesPattern_append_no_slash (a b : Str) (h : ∀ c ∈ a, c ≠ '/') :
    matchIssuesPattern (a ++ b) = matchIssuesPattern b := by
  induction a with
  | nil => rfl
  | cons x a ih =>
    rw [List.cons_append,
      matchIssuesPattern_cons_of_none (tryIssuesAt_not_slash (h x (by simp))),
      ih (fun c hc => h c (by simp [hc]))]

theorem prefix_slashfree_segment {w a rest : Str}
    (hw : ∀ c ∈ w, c ≠ '/') (ha : ∀ c ∈ a, c ≠ '/') :
    ((w ++ ['/']).isPrefixOf (a ++ '/' :: rest) = true) ↔ a = w := by
  induction w generalizing a with
  | nil =>
    cases a with
    | nil => simp [List.isPrefixOf]
    | cons x a2 =>
      simp only [List.nil_append, List.cons_append, List.isPrefixOf,
        List.isPrefixOf_cons₂]
      constructor
      · intro hx
        simp only [Bool.and_eq_true, beq_iff_eq] at hx
        exact absurd hx.1.symm (ha x (by simp))
      · intro hx
        simp at hx
  | cons d w ih =>
    cases a with
    | nil =>
      simp only [List.nil_append, List.cons_append, List.isPrefixOf]
      constructor
      · intro hx
        simp only [Bool.and_eq_true, beq_iff_eq] at hx
        exact absurd hx.1 (hw d (by simp))
      · intro hx
        simp at hx
    | cons x a2 =>
      simp only [List.cons_append, List.isPrefixOf, List.append_eq, Bool.and_eq_true,
        beq_iff_eq]
      rw [ih (fun c hc => hw c (by simp [hc])) (fun c hc => ha c (by simp [hc]))]
      constructor
      · rintro ⟨h1, h2⟩
        rw [h1, h2]
      · intro hx
        obtain ⟨h1, h2⟩ := List.cons.inj hx
        exact ⟨h1.symm, h2⟩

theorem isEmpty_eq_false_of_ne {a : Str} (h : a ≠ []) : a.isEmpty = false := by
  cases a with
  | nil => exact absurd rfl h
  | cons x t => rfl

theorem tryIssuesAt_double_slash (t : Str) : tryIssuesAt ('/' :: '/' :: t) = none := rfl

theorem tryIssuesAt_ghcom (owner repo ds : Str) (ho : owner ≠ [])
    (hos : ∀ c ∈ owner, c ≠ '/') (hrs : ∀ c ∈ repo, c ≠ '/') :
    tryIssuesAt ('/' :: ((("github.com").data) ++ ('/' :: (owner ++ ('/' :: (repo ++
      ((("/issues/").data) ++ ds))))))) = none := by
  have hg1 : (((("github.com").data) ++ ('/' :: (owner ++ ('/' :: (repo ++
      ((("/issues/").data) ++ ds)))))).takeWhile (fun c => decide (c ≠ '/'))) =
      (("github.com").data) :=
    takeWhile_middle (by decide) (by decide)
  have how : ((owner ++ ('/' :: (repo ++ ((("/issues/").data) ++ ds)))).takeWhile
      (fun c => decide (c ≠ '/'))) = owner :=
    takeWhile_middle (fun x hx => by simp [hos x hx]) (by decide)
  simp only [tryIssuesAt, hg1]
  rw [isEmpty_eq_false_of_ne (by decide)]
  simp only [Bool.false_eq_true, if_false]
  rw [show ((("github.com").data).length) = 10 from rfl]
  rw [show (((("github.com").data) ++ ('/' :: (owner ++ ('/' :: (repo ++
      ((("/issues/").data) ++ ds)))))).drop 10) = '/' :: (owner ++ ('/' :: (repo ++
      ((("/issues/").data) ++ ds)))) from drop_append_self (("github.com").data) _]
  simp only [how]
  rw [isEmpty_eq_false_of_ne ho]
  simp only [Bool.false_eq_true, if_false]
  rw [show ((owner ++ ('/' :: (repo ++ ((("/issues/").data) ++ ds)))).drop owner.length) =
      '/' :: (repo ++ ((("/issues/").data) ++ ds)) from drop_append_self owner _]
  have hresh : repo ++ ((("/issues/").data) ++ ds) = repo ++ '/' :: ((("issues/").data) ++ ds) := by
    simp
  by_cases hrep : repo = (("issues").data)
  · subst hrep
    rw [if_pos (show ((("/issues/").data).isPrefixOf
        ('/' :: ((("issues").data) ++ ((("/issues/").data) ++ ds)))) = true from rfl)]
    rw [show ((('/' :: ((("issues").data) ++ ((("/issues/").data) ++ ds))).drop 8)) =
        (("issues/").data) ++ ds from rfl]
    rw [show (("issues/").data) ++ ds = 'i' :: ((("ssues/").data) ++ ds) from rfl]
    rw [List.takeWhile_cons_of_neg (by decide)]
    rfl
  · rw [if_neg]
    intro hpre
    apply hrep
    rw [hresh] at hpre
    rw [List.isPrefixOf_cons₂_self] at hpre
    exact (@prefix_slashfree_segment (("issues").data) repo ((("issues/").data) ++ ds)
      (by decide) hrs).mp hpre

theorem tryIssuesAt_owner (owner repo ds : Str)
    (ho : owner ≠ []) (hr : repo ≠ [])
    (hos : ∀ c ∈ owner, c ≠ '/') (hrs : ∀ c ∈ repo, c ≠ '/')
    (hdne : ds ≠ []) (hds : ∀ c ∈ ds, c.isDigit = true) :
    tryIssuesAt ('/' :: (owner ++ ('/' :: (repo ++ ((("/issues/").data) ++ ds))))) =
      some (owner, repo, ds) := by
  have how : ((owner ++ ('/' :: (repo ++ ((("/issues/").data) ++ ds)))).takeWhile
      (fun c => decide (c ≠ '/'))) = owner :=
    takeWhile_middle (fun x hx => by simp [hos x hx]) (by decide)
  have hrw : ((repo ++ ((("/issues/").data) ++ ds)).takeWhile
      (fun c => decide (c ≠ '/'))) = repo := by
    rw [show repo ++ ((("/issues/").data) ++ ds) = repo ++ '/' :: ((("issues/").data) ++ ds)
      from by simp]
    exact takeWhile_middle (fun x hx => by simp [hrs x hx]) (by decide)
  simp only [tryIssuesAt, how]
  rw [isEmpty_eq_false_of_ne ho]
  simp only [Bool.false_eq_true, if_false]
  rw [show ((owner ++ ('/' :: (repo ++ ((("/issues/").data) ++ ds)))).drop owner.length) =
      '/' :: (repo ++ ((("/issues/").data) ++ ds)) from drop_append_self owner _]
  simp only [hrw]
  rw [isEmpty_eq_false_of_ne hr]
  simp only [Bool.false_eq_true, if_false]
  rw [show ((repo ++ ((("/issues/").data) ++ ds)).drop repo.length) =
      (("/issues/").data) ++ ds from drop_append_self repo _]
  rw [if_pos (isPrefixOf_append_self (("/issues/").data) ds)]
  rw [show (((("/issues/").data) ++ ds).drop 8) = ds from drop_append_self (("/issues/").data) ds]
  rw [takeWhile_of_all hds]
  rw [isEmpty_eq_false_of_ne hdne]
  simp

theorem matchIssuesPattern_canonical (owner repo ds : Str)
    (ho : owner ≠ []) (hr : repo ≠ [])
    (hos : ∀ c ∈ owner, c ≠ '/') (hrs : ∀ c ∈ repo, c ≠ '/')
    (hdne : ds ≠ []) (hds : ∀ c ∈ ds, c.isDigit = true) :
    matchIssuesPattern ((("https://github.com/").data) ++ (owner ++ ('/' :: (repo ++
      ((("/issues/").data) ++ ds))))) = some (owner, repo, ds) := by
  have hshape : (("https://github.com/").data) ++ (owner ++ ('/' :: (repo ++
      ((("/issues/").data) ++ ds)))) =
      (("https:").data) ++ ('/' :: '/' :: ((("github.com").data) ++ ('/' :: (owner ++
        ('/' :: (repo ++ ((("/issues/").data) ++ ds))))))) := by
    simp
  rw [hshape]
  rw [matchIssuesPattern_append_no_slash (("https:").data) _ (by decide)]
  rw [matchIssuesPattern_cons_of_none (tryIssuesAt_double_slash _)]
  rw [matchIssuesPattern_cons_of_none (tryIssuesAt_ghcom owner repo ds ho hos hrs)]
  rw [matchIssuesPattern_append_no_slash (("github.com").data) _ (by decide)]
  rw [matchIssuesPattern, tryIssuesAt_owner owner repo ds ho hr hos hrs hdne hds]

theorem isDigit_ne_quote_newline {c : Char} (hc : c.isDigit = true) :
    c ≠ '"' ∧ c ≠ '\n' := by
  constructor
  · intro he
    subst he
    exact absurd hc (by decide)
  · intro he
    subst he
    exact absurd hc (by decide)

/-- C3: for an issue whose canonical url has the owner/repo/issues/number
shape (nonempty owner and repo containing no slash, quote, or newline),
parsing the content produced by encoding the issue recovers exactly the same
owner, repo and number: parseFrontmatter returns the url, the repo field
owner/repo, and the issue number of the issue. -/
theorem C3_identity_codec_roundtrip (issue : GitHubIssue) (owner repo : Str)
    (ho : owner ≠ []) (hr : repo ≠ [])
    (hos : ∀ c ∈ owner, c ≠ '/' ∧ c ≠ '"' ∧ c ≠ '\n')
    (hrs : ∀ c ∈ repo, c ≠ '/' ∧ c ≠ '"' ∧ c ≠ '\n')
    (hurl : issue.url = (("https://github.com/").data) ++ (owner ++ ('/' :: (repo ++
      ((("/issues/").data) ++ natDigits issue.number))))) :
    parseFrontmatter (generateFrontmatter issue) =
      some ⟨issue.url, owner ++ '/' :: repo, issue.number⟩ := by
  have hq : ∀ c ∈ issue.url, c ≠ '"' := by
    rw [hurl]
    refine List.forall_mem_append.mpr ⟨by decide, ?_⟩
    refine List.forall_mem_append.mpr ⟨fun c hc => (hos c hc).2.1, ?_⟩
    refine List.forall_mem_cons.mpr ⟨by decide, ?_⟩
    refine List.forall_mem_append.mpr ⟨fun c hc => (hrs c hc).2.1, ?_⟩
    refine List.forall_mem_append.mpr ⟨by decide, ?_⟩
    exact fun c hc => (isDigit_ne_quote_newline (natDigits_digits _ c hc)).1
  have hn : ∀ c ∈ issue.url, c ≠ '\n' := by
    rw [hurl]
    refine List.forall_mem_append.mpr ⟨by decide, ?_⟩
    refine List.forall_mem_append.mpr ⟨fun c hc => (hos c hc).2.2, ?_⟩
    refine List.forall_mem_cons.mpr ⟨by decide, ?_⟩
    refine List.forall_mem_append.mpr ⟨fun c hc => (hrs c hc).2.2, ?_⟩
    refine List.forall_mem_append.mpr ⟨by decide, ?_⟩
    exact fun c hc => (isDigit_ne_quote_newline (natDigits_digits _ c hc)).2
  have hyaml : ∀ c ∈ (("url: \"").data) ++ issue.url ++ ['"'], c ≠ '\n' := by
    refine List.forall_mem_append.mpr ⟨List.forall_mem_append.mpr ⟨by decide, hn⟩, by decide⟩
  have hne : issue.url.isEmpty = false := by
    rw [hurl]; rfl
  have hmatch : matchIssuesPattern issue.url = some (owner, repo, natDigits issue.number) := by
    rw [hurl]
    exact matchIssuesPattern_canonical owner repo (natDigits issue.number) ho hr
      (fun c hc => (hos c hc).1) (fun c hc => (hrs c hc).1)
      (natDigits_ne_nil _) (natDigits_digits _)
  show parseFrontmatter ((("---\nurl: \"").data) ++ issue.url ++ (("\"\n---").data)) = _
  unfold parseFrontmatter
  rw [frontmatterCapture_gen issue.url hn]
  dsimp only
  rw [splitOnChar_of_not_mem hyaml]
  rw [findFirstUrl]
  rw [matchUrlLine_gen issue.url hq]
  dsimp only
  rw [hne]
  simp only [Bool.false_eq_true, if_false]
  rw [hmatch]
  dsimp only
  rw [parseDecimal_natDigits]

/-- Witness for C3 at a concrete input: encoding then decoding the issue
number 42 of repository foo/bar recovers foo/bar and 42. -/
theorem C3_identity_codec_roundtrip_witness :
    parseFrontmatter (generateFrontmatter
      ⟨42, [], [], [], ("https://github.com/foo/bar/issues/42").data, [], [], [], []⟩) =
      some ⟨("https://github.com/foo/bar/issues/42").data, ("foo/bar").data, 42⟩ := by
  have h := C3_identity_codec_roundtrip
    ⟨42, [], [], [], ("https://github.com/foo/bar/issues/42").data, [], [], [], []⟩
    (("foo").data) (("bar").data) (by decide) (by decide)
    (by decide) (by decide) (by decide)
  simpa using h

/-- C8: the decode direction is a total function into an optional record (the
embedding returns instead of throwing on every input); it returns none
whenever the frontmatter block is absent, the block has no url line or an
empty url capture, or the url does not contain the owner/repo/issues/number
pattern; and every returned record derives its repo and issue number from the
first pattern match of its url. -/
theorem C8_decode_totality :
    (∀ content, frontmatterCapture content = none → parseFrontmatter content = none) ∧
    (∀ content yaml, frontmatterCapture content = some yaml →
      findFirstUrl (splitOnChar '\n' yaml) = none → parseFrontmatter content = none) ∧
    (∀ content yaml url, frontmatterCapture content = some yaml →
      findFirstUrl (splitOnChar '\n' yaml) = some url →
      (url = [] ∨ matchIssuesPattern url = none) → parseFrontmatter content = none) ∧
    (∀ content fm, parseFrontmatter content = some fm →
      ∃ o r ds, matchIssuesPattern fm.url = some (o, r, ds) ∧
        fm.repo = o ++ '/' :: r ∧ fm.issue_number = parseDecimal ds) := by
  refine ⟨?_, ?_, ?_, ?_⟩
  · intro content h
    unfold parseFrontmatter
    rw [h]
  · intro content yaml h1 h2
    unfold parseFrontmatter
    rw [h1]
    dsimp only
    rw [h2]
  · intro content yaml url h1 h2 h3
    unfold parseFrontmatter
    rw [h1]
    dsimp only
    rw [h2]
    dsimp only
    rcases h3 with h3 | h3
    · subst h3
      rfl
    · by_cases he : url.isEmpty = true
      · rw [if_pos he]
      · rw [if_neg he, h3]
  · intro content fm h
    unfold parseFrontmatter at h
    cases hfc : frontmatterCapture content with
    | none => rw [hfc] at h; simp at h
    | some yaml =>
      rw [hfc] at h
      dsimp only at h
      cases hfu : findFirstUrl (splitOnChar '\n' yaml) with
      | none => rw [hfu] at h; simp at h
      | some url =>
        rw [hfu] at h
        dsimp only at h
        by_cases he : url.isEmpty = true
        · rw [if_pos he] at h
          simp at h
        · rw [if_neg he] at h
          cases hm : matchIssuesPattern url with
          | none => rw [hm] at h; simp at h
          | some triple =>
            obtain ⟨o, r, ds⟩ := triple
            rw [hm] at h
            dsimp only at h
            injection h with h2
            subst h2
            exact ⟨o, r, ds, hm, rfl, rfl⟩

/-- Witness for C8 at concrete inputs: a content with no header and a content
whose header has no url field both decode to none. -/
theorem C8_decode_totality_witness :
    parseFrontmatter (("no header").data) = none ∧
    parseFrontmatter (("---\ntitle: \"x\"\n---").data) = none :=
  ⟨C8_decode_totality.1 (("no header").data) (by decide),
   C8_decode_totality.2.1 (("---\ntitle: \"x\"\n---").data)
     (("title: \"x\"").data) (by decide) (by decide)⟩

/-! Lemmas for the archival operation. -/

theorem archive_filter_eq (folder : List VFile) (idx : Str) (S : List Nat) :
    ((getIssueFiles folder idx).filter (fun f =>
      match parseFrontmatter f.content with
      | some fm => !(S.contains fm.issue_number)
      | none => false)) = folder.filter (archDecision idx S) := by
  rw [getIssueFiles, List.filter_filter]
  apply List.filter_congr
  intro f hf
  cases hp : parseFrontmatter f.content with
  | none => simp [archDecision, hp]
  | some fm =>
    simp [archDecision, hp, Bool.and_comm, Bool.and_left_comm, Bool.and_assoc]

/-- C4 (as amended): archiveOldIssues renames into the archive folder exactly
those markdown files, other than one named like the index file, whose content
parses to a valid header whose issue number is outside the synced set; every
file is otherwise returned untouched (the operation never rewrites content),
a file without a parseable header is never archived whatever its name, and a
managed file whose number is synced is never archived. -/
theorem C4_archival_frame (folder : List VFile) (indexFileName : Str) (S : List Nat) :
    (archiveOldIssues folder indexFileName S).1 =
      folder.map (fun f => (f, archDecision indexFileName S f)) ∧
    (archiveOldIssues folder indexFileName S).2 =
      (folder.filter (archDecision indexFileName S)).length ∧
    (∀ f : VFile, parseFrontmatter f.content = none →
      archDecision indexFileName S f = false) ∧
    (∀ (f : VFile) fm, parseFrontmatter f.content = some fm →
      S.contains fm.issue_number = true → archDecision indexFileName S f = false) := by
  refine ⟨?_, ?_, ?_, ?_⟩
  · show folder.map _ = _
    rw [archive_filter_eq]
    apply List.map_congr_left
    intro f hf
    have hiff : (folder.filter (archDecision indexFileName S)).contains f =
        archDecision indexFileName S f := by
      by_cases hd : archDecision indexFileName S f = true
      · simp [List.contains, List.mem_filter, hf, hd]
      · simp only [Bool.not_eq_true] at hd
        simp [List.contains, List.mem_filter, hd]
    rw [hiff]
  · show ((getIssueFiles folder indexFileName).filter _).length = _
    rw [archive_filter_eq]
  · intro f hp
    simp [archDecision, hp]
  · intro f fm hp hc
    have hmem : fm.issue_number ∈ S := by
      simpa [List.contains] using hc
    simp [archDecision, hp, hmem]

/-- Witness for C4 at a concrete input: a two-file folder where the managed
file issue 2 outside the synced set is flagged for archival and the managed
file issue 1 inside the set is untouched. -/
theorem C4_archival_frame_witness :
    (archiveOldIssues
      [⟨("a.md").data, ("---\nurl: \"https://github.com/o/r/issues/2\"\n---").data⟩,
       ⟨("b.md").data, ("---\nurl: \"https://github.com/o/r/issues/1\"\n---").data⟩]
      (("Board").data) [1, 3]).1 =
      [(⟨("a.md").data, ("---\nurl: \"https://github.com/o/r/issues/2\"\n---").data⟩, true),
       (⟨("b.md").data, ("---\nurl: \"https://github.com/o/r/issues/1\"\n---").data⟩, false)] := by
  have h := (C4_archival_frame
    [⟨("a.md").data, ("---\nurl: \"https://github.com/o/r/issues/2\"\n---").data⟩,
     ⟨("b.md").data, ("---\nurl: \"https://github.com/o/r/issues/1\"\n---").data⟩]
    (("Board").data) [1, 3]).1
  rw [h]
  decide

/-- C4 counterexample at a concrete input: a folder holding a managed file
named like the index file (Board.md, valid header, issue 2 outside the synced
set {1,3}) and a managed file with a non-markdown extension (note.txt, valid
header, issue 4 outside the set); both carry parseable headers with numbers
outside the set, yet the archived count is zero and neither is renamed, so
the operation does not move every managed file whose number is unsynced. -/
theorem C4_archival_frame_counterexample :
    (parseFrontmatter (("---\nurl: \"https://github.com/o/r/issues/2\"\n---").data)).isSome = true ∧
    (parseFrontmatter (("---\nurl: \"https://github.com/o/r/issues/4\"\n---").data)).isSome = true ∧
    (archiveOldIssues
      [⟨("Board.md").data, ("---\nurl: \"https://github.com/o/r/issues/2\"\n---").data⟩,
       ⟨("note.txt").data, ("---\nurl: \"https://github.com/o/r/issues/4\"\n---").data⟩]
      (("Board").data) [1, 3]).2 = 0 ∧
    (archiveOldIssues
      [⟨("Board.md").data, ("---\nurl: \"https://github.com/o/r/issues/2\"\n---").data⟩,
       ⟨("note.txt").data, ("---\nurl: \"https://github.com/o/r/issues/4\"\n---").data⟩]
      (("Board").data) [1, 3]).1 =
      [(⟨("Board.md").data, ("---\nurl: \"https://github.com/o/r/issues/2\"\n---").data⟩, false),
       (⟨("note.txt").data, ("---\nurl: \"https://github.com/o/r/issues/4\"\n---").data⟩, false)] := by
  decide

/-! Lemmas about the insertion-ordered map of the index generation. -/

theorem mapGet_table {keys : List Str} {f : Str → List GitHubIssue} {k : Str}
    (hk : k ∈ keys) :
    mapGet (keys.map (fun k2 => (k2, f k2))) k = some (f k) := by
  induction keys with
  | nil => simp at hk
  | cons a keys ih =>
    by_cases ha : a = k
    · subst ha
      simp [mapGet, List.find?]
    · have hk2 : k ∈ keys := by
        rcases List.mem_cons.mp hk with h | h
        · exact absurd h.symm ha
        · exact h
      have := ih hk2
      simp only [mapGet, List.map_cons] at this ⊢
      rw [List.find?_cons_of_neg _ (by simp [ha])]
      exact this

theorem mapSet_table {keys : List Str} {f : Str → List GitHubIssue} {k : Str}
    {v : List GitHubIssue} (hk : k ∈ keys) :
    mapSet (keys.map (fun k2 => (k2, f k2))) k v =
      keys.map (fun k2 => (k2, if k2 = k then v else f k2)) := by
  rw [mapSet, if_pos]
  · rw [List.map_map]
    apply List.map_congr_left
    intro a ha
    by_cases h : a = k
    · simp [h]
    · simp [h]
  · simp only [List.any_eq_true]
    exact ⟨(k, f k), List.mem_map.mpr ⟨k, hk, rfl⟩, by simp⟩

theorem mapSet_new {keys : List Str} {f : Str → List GitHubIssue} {k : Str}
    {v : List GitHubIssue} (hk : k ∉ keys) :
    mapSet (keys.map (fun k2 => (k2, f k2))) k v =
      keys.map (fun k2 => (k2, f k2)) ++ [(k, v)] := by
  rw [mapSet, if_neg]
  simp only [List.any_eq_true, not_exists, not_and]
  intro p hp
  obtain ⟨k2, hk2, rfl⟩ := List.mem_map.mp hp
  simp only [decide_eq_true_eq]
  intro he
  exact hk (he ▸ hk2)

theorem groupIssues_table {issues : List GitHubIssue} :
    ∀ {keys : List Str} {f : Str → List GitHubIssue},
    (∀ i ∈ issues, i.status ∈ keys) →
    groupIssues (keys.map (fun k2 => (k2, f k2))) issues =
      keys.map (fun k2 => (k2, f k2 ++ issues.filter (fun i => i.status = k2))) := by
  induction issues with
  | nil =>
    intro keys f hall
    simp [groupIssues]
  | cons i rest ih =>
    intro keys f hall
    have hi : i.status ∈ keys := hall i (by simp)
    have hstep : groupIssues (keys.map (fun k2 => (k2, f k2))) (i :: rest) =
        groupIssues (keys.map (fun k2 =>
          (k2, if k2 = i.status then f i.status ++ [i] else f k2))) rest := by
      simp only [groupIssues, List.foldl_cons]
      rw [mapGet_table hi]
      simp only [Option.getD_some]
      rw [mapSet_table hi]
    rw [hstep, ih (fun j hj => hall j (by simp [hj]))]
    apply List.map_congr_left
    intro k2 hk2
    by_cases h : k2 = i.status
    · subst h
      simp [List.filter_cons, List.append_assoc]
    · have h2 : ¬ i.status = k2 := fun he => h he.symm
      simp [List.filter_cons, h2, h]

theorem initFold_table :
    ∀ (opts : List StatusOption) (keys : List Str),
    (keys ++ opts.map (fun o => o.name)).Nodup →
    opts.foldl (fun m st => mapSet m st.name [])
        (keys.map (fun k => (k, ([] : List GitHubIssue)))) =
      (keys ++ opts.map (fun o => o.name)).map (fun k => (k, [])) := by
  intro opts
  induction opts with
  | nil =>
    intro keys h
    simp
  | cons o opts ih =>
    intro keys h
    have hshape : keys ++ (o :: opts).map (fun o => o.name) =
        (keys ++ [o.name]) ++ opts.map (fun o => o.name) := by
      simp
    rw [hshape] at h ⊢
    have hnew : o.name ∉ keys := by
      have h2 : keys.Disjoint ([o.name] ++ opts.map (fun o => o.name)) := by
        have := (List.nodup_append.mp (by simpa using h)).2.2
        simpa using this
      intro hmem
      exact h2 hmem (by simp)
    simp only [List.foldl_cons]
    rw [mapSet_new hnew]
    rw [show (keys.map (fun k => (k, ([] : List GitHubIssue)))) ++ [(o.name, [])] =
      (keys ++ [o.name]).map (fun k => (k, ([] : List GitHubIssue))) from by simp]
    exact ih (keys ++ [o.name]) h

theorem initStatusGroups_table (opts : List StatusOption)
    (hnd : (opts.map (fun o => o.name)).Nodup)
    (hns : noStatus ∉ opts.map (fun o => o.name)) :
    initStatusGroups opts =
      (opts.map (fun o => o.name) ++ [noStatus]).map (fun k => (k, [])) := by
  rw [initStatusGroups]
  have h0 : opts.foldl (fun m st => mapSet m st.name []) [] =
      (opts.map (fun o => o.name)).map (fun k => (k, [])) := by
    have := initFold_table opts [] (by simpa using hnd)
    simpa using this
  rw [h0, mapSet_new hns]
  simp

/-- C9 (as amended): when every issue status is a declared option name or the
sentinel No Status, the option names are distinct, and none of them is the
sentinel, the rendered index is the header lines followed by one section per
status in the metadata-declared order and a trailing No Status section, where
a status with no issues contributes nothing and a nonempty status contributes
its heading and one link entry per issue carrying that status.  (Without the
status-universe hypothesis the claim fails: an undeclared status creates an
extra section after the No Status group, see the counterexample.) -/
theorem C9_index_grouping (issues : List GitHubIssue) (opts : List StatusOption)
    (projectTitle : Str) (iterationTitle : Option Str) (issuesFolder syncTime : Str)
    (hnd : (opts.map (fun o => o.name)).Nodup)
    (hns : noStatus ∉ opts.map (fun o => o.name))
    (hall : ∀ i ∈ issues, i.status ∈ opts.map (fun o => o.name) ∨ i.status = noStatus) :
    generateIndexLines issues opts projectTitle iterationTitle issuesFolder syncTime =
      indexHeaderLines projectTitle iterationTitle syncTime ++
      (opts.map (fun o => o.name) ++ [noStatus]).flatMap
        (indexSectionFor issuesFolder issues) := by
  rw [generateIndexLines]
  congr 1
  rw [initStatusGroups_table opts hnd hns]
  rw [show ((opts.map (fun o => o.name) ++ [noStatus]).map
        (fun k => (k, ([] : List GitHubIssue)))) =
      ((opts.map (fun o => o.name) ++ [noStatus]).map
        (fun k => (k, (fun _ : Str => ([] : List GitHubIssue)) k))) from rfl]
  rw [groupIssues_table (fun i hi => by
    rcases hall i hi with h | h
    · simp [h]
    · simp [h])]
  rw [sectionLines, List.flatMap_map]
  simp only [List.nil_append]
  congr 1

/-- Witness for C9 at a concrete input: one Todo issue and one No Status
issue over the single declared option Todo. -/
theorem C9_index_grouping_witness :
    generateIndexLines
        [⟨1, ("A").data, [], [], [], ("Todo").data, [], [], []⟩,
         ⟨2, ("B").data, [], [], [], ("No Status").data, [], [], []⟩]
        [⟨("1").data, ("Todo").data, none⟩]
        (("P").data) none [] (("now").data) =
      indexHeaderLines (("P").data) none (("now").data) ++
      ([("Todo").data] ++ [noStatus]).flatMap
        (indexSectionFor []
          [⟨1, ("A").data, [], [], [], ("Todo").data, [], [], []⟩,
           ⟨2, ("B").data, [], [], [], ("No Status").data, [], [], []⟩]) :=
  C9_index_grouping
    [⟨1, ("A").data, [], [], [], ("Todo").data, [], [], []⟩,
     ⟨2, ("B").data, [], [], [], ("No Status").data, [], [], []⟩]
    [⟨("1").data, ("Todo").data, none⟩]
    (("P").data) none [] (("now").data)
    (by decide) (by decide) (by decide)

/-- C9 counterexample at a concrete input: a single issue with the undeclared
status Weird produces a section headed Weird, which is neither a declared
status section nor the No Status section, so the index does not consist only
of declared-status sections followed by a trailing No Status group. -/
theorem C9_index_grouping_counterexample :
    ((generateIndexLines
        [⟨7, ("T").data, [], [], [], ("Weird").data, [], [], []⟩]
        [⟨("1").data, ("Todo").data, none⟩]
        (("P").data) none [] (("now").data)).filter
      (fun l => (("## ").data).isPrefixOf l)) = [("## Weird").data] ∧
    ¬ ((("Weird").data) ∈ [("Todo").data] ∨ (("Weird").data) = noStatus) := by
  decide

/-! Lemmas for the push-time title derivation. -/

theorem dropWhile_head_false {p : Char → Bool} :
    ∀ {l : Str} {c : Char} {t : Str}, l.dropWhile p = c :: t → p c = false := by
  intro l
  induction l with
  | nil => intro c t h; simp at h
  | cons a l2 ih =>
    intro c t h
    rw [List.dropWhile_cons] at h
    by_cases hp : p a = true
    · rw [if_pos hp] at h
      exact ih h
    · rw [if_neg hp] at h
      obtain ⟨h1, -⟩ := List.cons.inj h
      subst h1
      exact Bool.eq_false_iff.mpr hp

theorem trimDashSpace_head {s : Str} {c : Char} {rest : Str}
    (h : trimDashSpace s = c :: rest) : dashOrSpace c = false := by
  unfold trimDashSpace at h
  obtain ⟨pre, hpre⟩ :=
    List.dropWhile_suffix (l := (s.dropWhile dashOrSpace).reverse) dashOrSpace
  have hu2 : s.dropWhile dashOrSpace =
      ((s.dropWhile dashOrSpace).reverse.dropWhile dashOrSpace).reverse ++ pre.reverse := by
    have h2 := congrArg List.reverse hpre
    simpa [List.reverse_append] using h2.symm
  rw [h] at hu2
  exact dropWhile_head_false hu2

theorem sanitizeFilename_head (t : Str) :
    ∃ c rest, sanitizeFilename t = c :: rest ∧ jsWhitespace c = false := by
  unfold sanitizeFilename
  dsimp only
  cases h3 : trimDashSpace (collapseDashes
      (t.map (fun c => if invalidFilenameChar c then '-' else c))) with
  | nil =>
    exact ⟨'u', ("ntitled").data, by decide, by decide⟩
  | cons c rest =>
    have hcw : jsWhitespace c = false :=
      (Bool.or_eq_false_iff.mp (trimDashSpace_head h3)).2
    by_cases hres : isWindowsReserved (c :: rest) = true
    · rw [if_pos hres]
      simp only [List.cons_append, List.isEmpty_cons, Bool.false_eq_true, if_false]
      by_cases hlen : 200 < (c :: (rest ++ ['_'])).length
      · rw [if_pos hlen]
        exact ⟨c, (rest ++ ['_']).take 199, List.take_succ_cons, hcw⟩
      · rw [if_neg hlen]
        exact ⟨c, rest ++ ['_'], rfl, hcw⟩
    · rw [if_neg hres]
      simp only [List.isEmpty_cons, Bool.false_eq_true, if_false]
      by_cases hlen : 200 < (c :: rest).length
      · rw [if_pos hlen]
        exact ⟨c, rest.take 199, List.take_succ_cons, hcw⟩
      · rw [if_neg hlen]
        exact ⟨c, rest, rfl, hcw⟩

theorem stripLeadingNumber_not_paren {c : Char} {t : Str} (h : c ≠ '(') :
    stripLeadingNumber (c :: t) = c :: t := by
  unfold stripLeadingNumber
  split
  · rename_i rest heq
    obtain ⟨h1, -⟩ := List.cons.inj heq
    exact absurd h1 h
  · rfl

theorem stripLeadingNumber_paren_append {s2 : Str} {d : Char} {drest : Str}
    (hd1 : d.isDigit = false) (hd2 : d ≠ ')')
    (hnp : startsParenNumber ('(' :: s2) = false) :
    stripLeadingNumber ('(' :: (s2 ++ d :: drest)) = '(' :: (s2 ++ d :: drest) := by
  have hsplit := List.takeWhile_append_dropWhile Char.isDigit s2
  simp only [stripLeadingNumber]
  cases ht0 : s2.dropWhile Char.isDigit with
  | nil =>
    have hall : ∀ x ∈ s2, Char.isDigit x = true := by
      intro x hx
      rw [← hsplit, ht0, List.append_nil] at hx
      exact List.mem_takeWhile_imp hx
    have hds : (s2 ++ d :: drest).takeWhile Char.isDigit = s2 :=
      takeWhile_middle hall hd1
    rw [hds]
    by_cases hs2 : s2.isEmpty = true
    · rw [if_pos hs2]
    · rw [if_neg hs2]
      rw [drop_append_self s2 (d :: drest)]
      split
      · rename_i r2 heq
        obtain ⟨h1, -⟩ := List.cons.inj heq
        exact absurd h1 hd2
      · rfl
  | cons e t1 =>
    have he : Char.isDigit e = false := dropWhile_head_false ht0
    have hshape : s2 ++ d :: drest =
        s2.takeWhile Char.isDigit ++ e :: (t1 ++ d :: drest) := by
      conv_lhs => rw [← hsplit, ht0]
      simp
    have hds : (s2 ++ d :: drest).takeWhile Char.isDigit = s2.takeWhile Char.isDigit := by
      rw [hshape]
      exact takeWhile_middle (fun x hx => List.mem_takeWhile_imp hx) he
    rw [hds]
    by_cases hd0 : (s2.takeWhile Char.isDigit).isEmpty = true
    · rw [if_pos hd0]
    · rw [if_neg hd0]
      rw [hshape, drop_append_self]
      by_cases hep : e = ')'
      · exfalso
        subst hep
        have hpn : startsParenNumber ('(' :: s2) = true := by
          simp only [startsParenNumber]
          rw [show s2 = s2.takeWhile Char.isDigit ++ ')' :: t1 from by
            conv_lhs => rw [← hsplit, ht0]]
          rw [takeWhile_middle (fun x hx => List.mem_takeWhile_imp hx) (by decide)]
          rw [drop_append_self]
          simp only [Bool.and_eq_true, Bool.not_eq_true']
          refine ⟨?_, trivial⟩
          simpa using hd0
        rw [hpn] at hnp
        simp at hnp
      · split
        · rename_i r2 heq
          obtain ⟨h1, -⟩ := List.cons.inj heq
          exact absurd h1 hep
        · rfl

theorem trimJS_eq_self {s : Str}
    (hhead : ∃ c t, s = c :: t ∧ jsWhitespace c = false)
    (hlast : ∃ c t, s = t ++ [c] ∧ jsWhitespace c = false) : trimJS s = s := by
  obtain ⟨c, t, rfl, hc⟩ := hhead
  obtain ⟨c2, t2, he, hc2⟩ := hlast
  unfold trimJS
  rw [List.dropWhile_cons_of_neg (by simp [hc])]
  rw [he]
  simp only [List.reverse_append, List.reverse_cons, List.reverse_nil, List.nil_append,
    List.cons_append]
  rw [List.dropWhile_cons_of_neg (by simp [hc2])]
  simp

/-- C10 (as amended): the title pushCurrentIssue sends for a file freshly
written by a pull (and not renamed since) is the sanitized original title
followed by the parenthesised issue number — the disambiguation suffix is not
stripped, so the remote title is not preserved by an unedited pull-then-push;
it equals the original title plus the suffix only when the title is already
filename-safe.  The hypothesis excludes the corner where the sanitized title
itself starts with a parenthesised number, which the push-side stripping
would remove. -/
theorem C10_push_title_drift (issue : GitHubIssue)
    (hnp : startsParenNumber (sanitizeFilename issue.title) = false) :
    pushTitleOf (generateIssueFilename issue) =
      sanitizeFilename issue.title ++ ((" (").data) ++ natDigits issue.number ++ ((")").data) := by
  obtain ⟨c, rest, hsan, hcw⟩ := sanitizeFilename_head issue.title
  have hshape : generateIssueFilename issue =
      sanitizeFilename issue.title ++ ' ' :: ('(' :: (natDigits issue.number ++ [')'])) := by
    rw [generateIssueFilename]
    simp
  rw [pushTitleOf, hshape]
  have hstrip : stripLeadingNumber (sanitizeFilename issue.title ++
      ' ' :: ('(' :: (natDigits issue.number ++ [')']))) =
      sanitizeFilename issue.title ++ ' ' :: ('(' :: (natDigits issue.number ++ [')'])) := by
    by_cases hc2 : c = '('
    · subst hc2
      rw [hsan, List.cons_append]
      exact stripLeadingNumber_paren_append (by decide) (by decide) (hsan ▸ hnp)
    · rw [hsan, List.cons_append]
      exact stripLeadingNumber_not_paren hc2
  rw [hstrip]
  have htrim : trimJS (sanitizeFilename issue.title ++
      ' ' :: ('(' :: (natDigits issue.number ++ [')']))) =
      sanitizeFilename issue.title ++ ' ' :: ('(' :: (natDigits issue.number ++ [')'])) := by
    apply trimJS_eq_self
    · exact ⟨c, rest ++ ' ' :: ('(' :: (natDigits issue.number ++ [')'])),
        by rw [hsan, List.cons_append], hcw⟩
    · refine ⟨')', sanitizeFilename issue.title ++ ' ' :: ('(' :: natDigits issue.number),
        ?_, by decide⟩
      simp
  rw [htrim]
  simp

/-- Witness for C10 at a concrete input: a filename-safe title round-trips to
the title plus the parenthesised number. -/
theorem C10_push_title_drift_witness :
    pushTitleOf (generateIssueFilename ⟨7, ("Nice Title").data, [], [], [], [], [], [], []⟩) =
      sanitizeFilename (("Nice Title").data) ++ ((" (").data) ++ natDigits 7 ++ ((")").data) :=
  C10_push_title_drift ⟨7, ("Nice Title").data, [], [], [], [], [], [], []⟩ (by decide)

/-- C10 counterexample at a concrete input: for the issue titled a/b with
number 1, the pulled file basename is a-b (1) and the pushed title is
a-b (1), not the original title followed by the suffix, because pull-side
sanitization replaced the slash. -/
theorem C10_push_title_drift_counterexample :
    pushTitleOf (generateIssueFilename ⟨1, ("a/b").data, [], [], [], [], [], [], []⟩) =
      ("a-b (1)").data ∧
    ("a-b (1)").data ≠ ("a/b").data ++ ((" (1)").data) := by
  decide

/-- C6: when two processed image references resolve to files with the same
content digest and the same derived extension (hence the same derived
filename), the second processing issues no upload: either the first probe
already found the blob, or the first call uploaded it, and in both cases the
second call finds it present and reuses the same blob url. -/
theorem C6_image_dedup (vaultFiles : List ImageFile) (hash : List Nat → Str)
    (s : ImgSettings) (st : RepoState) (p1 p2 : Str) (f1 f2 : ImageFile)
    (h1 : findImageFile vaultFiles p1 = some f1)
    (h2 : findImageFile vaultFiles p2 = some f2)
    (hb : hash f2.bytes = hash f1.bytes)
    (he : getExtension f2.name = getExtension f1.name) :
    (processLocalImage vaultFiles hash s
        (processLocalImage vaultFiles hash s st p1).2.1 p2).2.2 = 0 ∧
    (processLocalImage vaultFiles hash s
        (processLocalImage vaultFiles hash s st p1).2.1 p2).1 =
      (processLocalImage vaultFiles hash s st p1).1 := by
  have hfn : hashFilename hash f2 = hashFilename hash f1 := by
    rw [hashFilename, hashFilename, hb, he]
  unfold processLocalImage
  rw [h1, h2]
  dsimp only
  rw [hfn]
  by_cases hex : imageExistsInRepo st (hashFilename hash f1) = true
  · rw [if_pos hex]
    dsimp only
    rw [if_pos hex]
    exact ⟨rfl, rfl⟩
  · rw [if_neg hex]
    dsimp only
    rw [if_pos (show imageExistsInRepo ⟨hashFilename hash f1 :: st.files⟩
        (hashFilename hash f1) = true from by simp [imageExistsInRepo])]
    exact ⟨rfl, rfl⟩

/-- Witness for C6 at a concrete input: pushing the same vault image twice
from an empty asset repository uploads once and the second call issues no
upload and returns the same url. -/
theorem C6_image_dedup_witness :
    (processLocalImage [⟨("img.png").data, ("img.png").data, ("img").data, [1, 2]⟩]
        (fun _ => ("abcd").data) ⟨("u/r").data, [], []⟩
        (processLocalImage [⟨("img.png").data, ("img.png").data, ("img").data, [1, 2]⟩]
          (fun _ => ("abcd").data) ⟨("u/r").data, [], []⟩ ⟨[]⟩ (("img.png").data)).2.1
        (("img.png").data)).2.2 = 0 ∧
    (processLocalImage [⟨("img.png").data, ("img.png").data, ("img").data, [1, 2]⟩]
        (fun _ => ("abcd").data) ⟨("u/r").data, [], []⟩
        (processLocalImage [⟨("img.png").data, ("img.png").data, ("img").data, [1, 2]⟩]
          (fun _ => ("abcd").data) ⟨("u/r").data, [], []⟩ ⟨[]⟩ (("img.png").data)).2.1
        (("img.png").data)).1 =
      (processLocalImage [⟨("img.png").data, ("img.png").data, ("img").data, [1, 2]⟩]
        (fun _ => ("abcd").data) ⟨("u/r").data, [], []⟩ ⟨[]⟩ (("img.png").data)).1 :=
  C6_image_dedup
    [⟨("img.png").data, ("img.png").data, ("img").data, [1, 2]⟩]
    (fun _ => ("abcd").data) ⟨("u/r").data, [], []⟩ ⟨[]⟩
    (("img.png").data) (("img.png").data)
    ⟨("img.png").data, ("img.png").data, ("img").data, [1, 2]⟩
    ⟨("img.png").data, ("img.png").data, ("img").data, [1, 2]⟩
    (by decide) (by decide) rfl rfl

/-! Lemmas for the image round trip. -/

theorem tryWikiAt_not_bang {c : Char} {t : Str} (h : c ≠ '!') :
    tryWikiAt (c :: t) = none := by
  unfold tryWikiAt
  split
  · rename_i r heq
    obtain ⟨h1, -⟩ := List.cons.inj heq
    exact absurd h1 h
  · rfl

theorem tryMdAt_not_bang {c : Char} {t : Str} (h : c ≠ '!') :
    tryMdAt (c :: t) = none := by
  unfold tryMdAt
  split
  · rename_i r heq
    obtain ⟨h1, -⟩ := List.cons.inj heq
    exact absurd h1 h
  · rfl

theorem tryMarkerAt_not_lt {c : Char} {t : Str} (h : c ≠ '<') :
    tryMarkerAt (c :: t) = none := by
  unfold tryMarkerAt
  rw [if_neg]
  rw [isPrefixOf_cons_of_ne h]
  simp

theorem findWikiGo_no_bang : ∀ (fuel : Nat) (s : Str), (∀ c ∈ s, c ≠ '!') →
    findWikiGo fuel s = [] := by
  intro fuel
  induction fuel with
  | zero =>
    intro s h
    cases s <;> rfl
  | succ fuel ih =>
    intro s h
    cases s with
    | nil => rfl
    | cons c t =>
      rw [findWikiGo, tryWikiAt_not_bang (h c (by simp))]
      exact ih t (fun x hx => h x (by simp [hx]))

theorem findMdGo_no_bang : ∀ (fuel : Nat) (s : Str), (∀ c ∈ s, c ≠ '!') →
    findMdGo fuel s = [] := by
  intro fuel
  induction fuel with
  | zero =>
    intro s h
    cases s <;> rfl
  | succ fuel ih =>
    intro s h
    cases s with
    | nil => rfl
    | cons c t =>
      rw [findMdGo, tryMdAt_not_bang (h c (by simp))]
      exact ih t (fun x hx => h x (by simp [hx]))

theorem restoreGo_no_lt : ∀ (fuel : Nat) (s : Str), (∀ c ∈ s, c ≠ '<') →
    restoreGo fuel s = s := by
  intro fuel
  induction fuel with
  | zero =>
    intro s h
    cases s <;> rfl
  | succ fuel ih =>
    intro s h
    cases s with
    | nil => rfl
    | cons c t =>
      rw [restoreGo, tryMarkerAt_not_lt (h c (by simp))]
      rw [ih t (fun x hx => h x (by simp [hx]))]

theorem replaceFirst_append {pre needle suf repl : Str} {c0 : Char} {n2 : Str}
    (hn : needle = c0 :: n2) (hpre : ∀ c ∈ pre, c ≠ c0) :
    replaceFirst (pre ++ needle ++ suf) needle repl = pre ++ repl ++ suf := by
  subst hn
  rw [replaceFirst, if_neg (by simp)]
  induction pre with
  | nil =>
    simp only [List.nil_append]
    rw [show (c0 :: n2) ++ suf = c0 :: (n2 ++ suf) from by simp]
    rw [replaceFirstGo]
    rw [if_pos (by
      have := isPrefixOf_append_self (c0 :: n2) suf
      simpa using this)]
    rw [show ((c0 :: (n2 ++ suf)).drop (c0 :: n2).length) = suf from by
      have := drop_append_self (c0 :: n2) suf
      simpa using this]
  | cons x pre ih =>
    simp only [List.cons_append]
    rw [replaceFirstGo]
    rw [if_neg (by
      rw [isPrefixOf_cons_of_ne (hpre x (by simp))]
      simp)]
    have := ih (fun c hc => hpre c (by simp [hc]))
    simp only [List.cons_append] at this
    rw [this]

theorem tryWikiAt_wl (p suf : Str) (hp : p ≠ [])
    (hpc : ∀ c ∈ p, c ≠ ']' ∧ c ≠ '|') :
    tryWikiAt ('!' :: '[' :: '[' :: (p ++ (']' :: ']' :: suf))) =
      some (⟨(("![[").data) ++ p ++ (("]]").data), p, p⟩, suf) := by
  have h1 : ((p ++ (']' :: ']' :: suf)).takeWhile (fun c => c ≠ ']' ∧ c ≠ '|')) = p :=
    takeWhile_middle (fun x hx => by simp [(hpc x hx).1, (hpc x hx).2]) (by decide)
  simp only [tryWikiAt]
  rw [h1]
  rw [isEmpty_eq_false_of_ne hp]
  simp only [Bool.false_eq_true, if_false]
  rw [drop_append_self p (']' :: ']' :: suf)]
  rfl

theorem findWikiGo_single (p suf : Str) (hp : p ≠ [])
    (hpc : ∀ c ∈ p, c ≠ ']' ∧ c ≠ '|' ∧ c ≠ '!')
    (hsuf : ∀ c ∈ suf, c ≠ '!') :
    ∀ (fuel : Nat) (pre : Str),
      (pre ++ ('!' :: '[' :: '[' :: (p ++ (']' :: ']' :: suf)))).length ≤ fuel →
      (∀ c ∈ pre, c ≠ '!') →
      findWikiGo fuel (pre ++ ('!' :: '[' :: '[' :: (p ++ (']' :: ']' :: suf)))) =
        [⟨(("![[").data) ++ p ++ (("]]").data), p, p⟩] := by
  intro fuel
  induction fuel with
  | zero =>
    intro pre hlen hpre
    exfalso
    simp [List.length_append] at hlen
  | succ fuel ih =>
    intro pre hlen hpre
    cases pre with
    | nil =>
      simp only [List.nil_append]
      rw [findWikiGo, tryWikiAt_wl p suf hp (fun c hc => ⟨(hpc c hc).1, (hpc c hc).2.1⟩)]
      dsimp only
      rw [findWikiGo_no_bang fuel suf hsuf]
    | cons c pre =>
      simp only [List.cons_append]
      rw [findWikiGo, tryWikiAt_not_bang (hpre c (by simp))]
      have hlen2 : (pre ++ ('!' :: '[' :: '[' :: (p ++ (']' :: ']' :: suf)))).length ≤ fuel := by
        simp only [List.cons_append, List.length_cons] at hlen
        omega
      exact ih pre hlen2 (fun x hx => hpre x (by simp [hx]))

theorem tryMdAt_wl (p suf : Str) (hpc : ∀ c ∈ p, c ≠ ']') :
    tryMdAt ('!' :: '[' :: ('[' :: (p ++ (']' :: ']' :: suf)))) = none := by
  have h1 : (('[' :: (p ++ (']' :: ']' :: suf))).takeWhile (fun c => c ≠ ']')) = '[' :: p := by
    rw [List.takeWhile_cons_of_pos (by decide)]
    rw [takeWhile_middle (fun x hx => by simp [hpc x hx]) (by decide)]
  simp only [tryMdAt]
  rw [h1]
  rw [show ('[' :: (p ++ (']' :: ']' :: suf))) = ('[' :: p) ++ (']' :: ']' :: suf) from by simp]
  rw [drop_append_self]
  rfl

theorem findMdGo_wl_none (p suf : Str) (hpc : ∀ c ∈ p, c ≠ ']' ∧ c ≠ '!')
    (hsuf : ∀ c ∈ suf, c ≠ '!') :
    ∀ (fuel : Nat) (pre : Str),
      (∀ c ∈ pre, c ≠ '!') →
      findMdGo fuel (pre ++ ('!' :: '[' :: '[' :: (p ++ (']' :: ']' :: suf)))) = [] := by
  intro fuel
  induction fuel with
  | zero =>
    intro pre hpre
    cases pre <;> rfl
  | succ fuel ih =>
    intro pre hpre
    cases pre with
    | nil =>
      simp only [List.nil_append]
      rw [findMdGo, tryMdAt_wl p suf (fun c hc => (hpc c hc).1)]
      dsimp only
      apply findMdGo_no_bang
      intro c hc
      simp only [List.mem_cons, List.mem_append] at hc
      rcases hc with rfl | rfl | hc | rfl | rfl | hc
      · decide
      · decide
      · exact (hpc c hc).2
      · decide
      · decide
      · exact hsuf c hc
    | cons c pre =>
      simp only [List.cons_append]
      rw [findMdGo, tryMdAt_not_bang (hpre c (by simp))]
      exact ih pre (fun x hx => hpre x (by simp [hx]))

theorem tryMarkerAt_mb (p url suf : Str) (hp : p ≠ [])
    (hpg : ∀ c ∈ p, c ≠ '>') (hpb : ∀ c ∈ p, c ≠ ']')
    (hu : url ≠ []) (hup : ∀ c ∈ url, c ≠ ')') :
    tryMarkerAt ((("<!-- obsidian-local: ").data) ++
      (p ++ (' ' :: '-' :: '-' :: '>' :: '\n' :: '!' :: '[' ::
        (p ++ (']' :: '(' :: (url ++ (')' :: suf))))))) = some (p, suf) := by
  have hre : (p ++ (' ' :: '-' :: '-' :: '>' :: '\n' :: '!' :: '[' ::
      (p ++ (']' :: '(' :: (url ++ (')' :: suf)))))) =
      ((p ++ (' ' :: '-' :: '-' :: [])) ++ ('>' :: '\n' :: '!' :: '[' ::
        (p ++ (']' :: '(' :: (url ++ (')' :: suf)))))) := by simp
  have hA : ∀ x ∈ p ++ (' ' :: '-' :: '-' :: []), (decide (x ≠ '>')) = true := by
    intro x hx
    rcases List.mem_append.mp hx with h | h
    · simp [hpg x h]
    · fin_cases h <;> decide
  have hrun : ((p ++ (' ' :: '-' :: '-' :: [])) ++ ('>' :: '\n' :: '!' :: '[' ::
      (p ++ (']' :: '(' :: (url ++ (')' :: suf)))))).takeWhile (fun c => c ≠ '>') =
      (p ++ (' ' :: '-' :: '-' :: [])) := takeWhile_middle hA (by decide)
  have hp1 : 0 < p.length := List.length_pos.mpr hp
  have hlen4 : ¬(p ++ (' ' :: '-' :: '-' :: [])).length < 4 := by
    simp only [List.length_append, List.length_cons, List.length_nil]
    omega
  have hsub : (p ++ (' ' :: '-' :: '-' :: [])).length - 3 = p.length := by
    simp only [List.length_append, List.length_cons, List.length_nil]
    omega
  have hnn : ¬¬((p ++ (' ' :: '-' :: '-' :: [])).drop p.length = ((" --").data)) :=
    fun hcon => hcon (drop_append_self p (' ' :: '-' :: '-' :: []))
  have halt : ((p ++ (']' :: '(' :: (url ++ (')' :: suf)))).takeWhile
      (fun c => c ≠ ']')) = p :=
    takeWhile_middle (fun x hx => by simp [hpb x hx]) (by decide)
  have hurl : ((url ++ (')' :: suf)).takeWhile (fun c => c ≠ ')')) = url :=
    takeWhile_middle (fun x hx => by simp [hup x hx]) (by decide)
  rw [hre]
  unfold tryMarkerAt
  rw [if_pos (isPrefixOf_append_self _ _)]
  dsimp only
  rw [List.drop_left' (show ((("<!-- obsidian-local: ").data) : Str).length = 21 from rfl)]
  rw [hrun]
  rw [if_neg hlen4]
  rw [hsub]
  rw [if_neg hnn]
  rw [List.take_left]
  rw [drop_append_self]
  simp only [halt, hurl, drop_append_self, isEmpty_eq_false_of_ne hu,
    Bool.false_eq_true, if_false]

theorem restoreGo_single (p url suf : Str) (hp : p ≠ []) (hpt : trimJS p = p)
    (hpb : ∀ c ∈ p, c ≠ ']') (hpg : ∀ c ∈ p, c ≠ '>')
    (hu : url ≠ []) (hup : ∀ c ∈ url, c ≠ ')')
    (hsuf : ∀ c ∈ suf, c ≠ '<') :
    ∀ (fuel : Nat) (pre : Str),
      (pre ++ ((("<!-- obsidian-local: ").data) ++
        (p ++ (' ' :: '-' :: '-' :: '>' :: '\n' :: '!' :: '[' ::
          (p ++ (']' :: '(' :: (url ++ (')' :: suf)))))))).length ≤ fuel →
      (∀ c ∈ pre, c ≠ '<') →
      restoreGo fuel (pre ++ ((("<!-- obsidian-local: ").data) ++
        (p ++ (' ' :: '-' :: '-' :: '>' :: '\n' :: '!' :: '[' ::
          (p ++ (']' :: '(' :: (url ++ (')' :: suf)))))))) =
        pre ++ ((("![[").data) ++ p ++ (("]]").data)) ++ suf := by
  intro fuel
  induction fuel with
  | zero =>
    intro pre hlen hpre
    exfalso
    simp [List.length_append] at hlen
  | succ fuel ih =>
    intro pre hlen hpre
    cases pre with
    | nil =>
      simp only [List.nil_append]
      have hm : tryMarkerAt ('<' :: ((("!-- obsidian-local: ").data) ++
          (p ++ (' ' :: '-' :: '-' :: '>' :: '\n' :: '!' :: '[' ::
            (p ++ (']' :: '(' :: (url ++ (')' :: suf)))))))) = some (p, suf) :=
        tryMarkerAt_mb p url suf hp hpg hpb hu hup
      rw [show ((("<!-- obsidian-local: ").data) ++
          (p ++ (' ' :: '-' :: '-' :: '>' :: '\n' :: '!' :: '[' ::
            (p ++ (']' :: '(' :: (url ++ (')' :: suf))))))) =
          '<' :: ((("!-- obsidian-local: ").data) ++
          (p ++ (' ' :: '-' :: '-' :: '>' :: '\n' :: '!' :: '[' ::
            (p ++ (']' :: '(' :: (url ++ (')' :: suf))))))) from rfl]
      rw [restoreGo, hm]
      dsimp only
      rw [hpt, restoreGo_no_lt fuel suf hsuf]
    | cons c pre =>
      rw [List.cons_append]
      rw [restoreGo, tryMarkerAt_not_lt (hpre c (by simp))]
      have hlen2 : (pre ++ ((("<!-- obsidian-local: ").data) ++
          (p ++ (' ' :: '-' :: '-' :: '>' :: '\n' :: '!' :: '[' ::
            (p ++ (']' :: '(' :: (url ++ (')' :: suf)))))))).length ≤ fuel := by
        rw [List.cons_append, List.length_cons] at hlen
        omega
      rw [ih pre hlen2 (fun x hx => hpre x (by simp [hx]))]
      simp

/-- C1 (as amended): the image round-trip law holds for Obsidian wikilink
embeds: for a body consisting of a simple (alias-free, trimmed) local
wikilink image surrounded by text free of the scan trigger characters, with
an image hosting repository configured and the path resolving to an uploaded
url, restoring the pushed content reproduces the original body byte for
byte, with exactly one upload and no skip.  (For a markdown-style local
image the law fails: the restore direction always emits a wikilink — see the
counterexample.) -/
theorem C1_image_roundtrip (hosting : Str) (resolve : Str → Option Str)
    (pre p suf url : Str)
    (hhost : hosting ≠ [])
    (hpre : ∀ c ∈ pre, c ≠ '!' ∧ c ≠ '<')
    (hp : p ≠ []) (hpt : trimJS p = p)
    (hpc : ∀ c ∈ p, c ≠ ']' ∧ c ≠ '|' ∧ c ≠ '!' ∧ c ≠ '>')
    (hsuf : ∀ c ∈ suf, c ≠ '!' ∧ c ≠ '<')
    (hres : resolve p = some url)
    (hu : url ≠ []) (hup : ∀ c ∈ url, c ≠ ')') :
    restoreLocalImages ((processImagesOnPush hosting resolve
        (pre ++ ('!' :: '[' :: '[' :: (p ++ (']' :: ']' :: suf))))).content) =
      pre ++ ('!' :: '[' :: '[' :: (p ++ (']' :: ']' :: suf))) ∧
    (processImagesOnPush hosting resolve
        (pre ++ ('!' :: '[' :: '[' :: (p ++ (']' :: ']' :: suf))))).uploadedCount = 1 ∧
    (processImagesOnPush hosting resolve
        (pre ++ ('!' :: '[' :: '[' :: (p ++ (']' :: ']' :: suf))))).skippedCount = 0 := by
  have hshape : pre ++ ('!' :: '[' :: '[' :: (p ++ (']' :: ']' :: suf))) =
      pre ++ ((("![[").data) ++ p ++ (("]]").data)) ++ suf := by simp
  have hF : ((("![[").data) ++ p ++ (("]]").data) : Str) =
      '!' :: ((("[[").data) ++ p ++ (("]]").data)) := rfl
  have hP : processImagesOnPush hosting resolve
      (pre ++ ('!' :: '[' :: '[' :: (p ++ (']' :: ']' :: suf)))) =
      PushResult.mk (pre ++ markerBlock p p url ++ suf) 1 0 := by
    unfold processImagesOnPush
    rw [isEmpty_eq_false_of_ne hhost]
    simp only [Bool.false_eq_true, if_false]
    rw [findWikiMatches, findWikiGo_single p suf hp
        (fun c hc => ⟨(hpc c hc).1, (hpc c hc).2.1, (hpc c hc).2.2.1⟩)
        (fun c hc => (hsuf c hc).1)
        (pre ++ ('!' :: '[' :: '[' :: (p ++ (']' :: ']' :: suf)))).length pre
        (le_refl _) (fun c hc => (hpre c hc).1)]
    rw [findMdMatches, findMdGo_wl_none p suf
        (fun c hc => ⟨(hpc c hc).1, (hpc c hc).2.2.1⟩)
        (fun c hc => (hsuf c hc).1)
        (pre ++ ('!' :: '[' :: '[' :: (p ++ (']' :: ']' :: suf)))).length pre
        (fun c hc => (hpre c hc).1)]
    dsimp only [List.foldl]
    rw [hres]
    dsimp only
    rw [hshape]
    rw [replaceFirst_append hF (fun c hc => (hpre c hc).1)]
  have hR : restoreLocalImages (pre ++ markerBlock p p url ++ suf) =
      pre ++ ('!' :: '[' :: '[' :: (p ++ (']' :: ']' :: suf))) := by
    have hX : pre ++ markerBlock p p url ++ suf =
        pre ++ ((("<!-- obsidian-local: ").data) ++
          (p ++ (' ' :: '-' :: '-' :: '>' :: '\n' :: '!' :: '[' ::
            (p ++ (']' :: '(' :: (url ++ (')' :: suf))))))) := by
      simp [markerBlock]
    rw [restoreLocalImages, hX]
    rw [restoreGo_single p url suf hp hpt (fun c hc => (hpc c hc).1)
        (fun c hc => (hpc c hc).2.2.2) hu hup (fun c hc => (hsuf c hc).2) _ pre
        (le_refl _) (fun c hc => (hpre c hc).2)]
    simp
  refine ⟨?_, ?_, ?_⟩
  · rw [hP]
    exact hR
  · rw [hP]
  · rw [hP]

theorem C1_image_roundtrip_witness :
    trimJS ((("img.png").data) : Str) = (("img.png").data) ∧
    restoreLocalImages ((processImagesOnPush (("u/r").data)
        (fun q => if q = (("img.png").data) then some (("https://u").data) else none)
        (('a' :: []) ++ ('!' :: '[' :: '[' ::
          ((("img.png").data) ++ (']' :: ']' :: ('b' :: [])))))).content) =
      ('a' :: []) ++ ('!' :: '[' :: '[' ::
        ((("img.png").data) ++ (']' :: ']' :: ('b' :: [])))) :=
  ⟨by decide,
   (C1_image_roundtrip (("u/r").data)
      (fun q => if q = (("img.png").data) then some (("https://u").data) else none)
      ('a' :: []) (("img.png").data) ('b' :: []) (("https://u").data)
      (by decide) (by decide) (by decide) (by decide) (by decide) (by decide)
      (by decide) (by decide) (by decide)).1⟩

theorem C1_image_roundtrip_counterexample :
    restoreLocalImages ((processImagesOnPush (("u/r").data)
        (fun q => if q = (("img.png").data) then
          some (("https://github.com/u/r/blob/main/images/ab.png?raw=true").data)
        else none) (("![a](img.png)").data)).content) = (("![[img.png]]").data) ∧
    (("![[img.png]]").data) ≠ ((("![a](img.png)").data) : Str) := by
  decide

end GhSync
